import Mathlib

/-!
Verification of the rehlatodo position-maintenance engine.

The definitions below are a shallow embedding of the server routes in
`src/server/routes/cards.js` (the cards router) and the columns router
(the second router bundled in `src/server/routes/logs.js`), over the
Sequelize models `Card`, `Column` and `Log`.

Modelling conventions:
* The database is a record of three lists (columns, cards, logs); a
  Sequelize `findByPk` is `List.find?` on the id, a bulk
  `increment ... where ...` is a `List.map` guarded by the where-clause,
  `destroy` is a `List.filter`, and `create` appends.
* A route wrapped in `sequelize.transaction()` is a function returning
  `Except String ...`; `.error` means every write of the call was rolled
  back, so the committed state is the pre-call database (`commit` below).
* Storage faults (I/O errors thrown by any awaited storage call, caught by
  the route's `catch` which rolls back) are modelled by a fault oracle
  `φ : Nat → Bool`; each storage call inside a transactional route has a
  fixed index and faults iff `φ index = true`.
* Positions are `Nat`.  Every decrement in the source is guarded by a
  strict lower bound `position > k` with `k : Nat`, so truncated
  subtraction agrees with the SQL `position - 1`.
-/

namespace RehlaTodo

/-- A row of the `cards` table (src/server/models/Card.js). -/
structure Card where
  id : Nat
  title : String
  description : Option String
  columnId : Nat
  position : Nat
  tagId : Option Nat
  userId : Option Nat
deriving Repr, DecidableEq

/-- A row of the `columns` table (src/server/models/Column.js). -/
structure Column where
  id : Nat
  name : String
  position : Nat
  userId : Option Nat
deriving Repr, DecidableEq

/-- A row of the `logs` table (src/server/models/Log.js). -/
structure LogEntry where
  cardId : Option Nat
  cardTitle : String
  actionType : String
  fromColumn : Option String
  toColumn : Option String
  fromPosition : Option Nat
  toPosition : Option Nat
  userId : Option Nat
deriving Repr, DecidableEq

/-- The relational store: the three tables the claims are about. -/
structure DB where
  columns : List Column
  cards : List Card
  logs : List LogEntry
deriving Repr, DecidableEq

/-- `Card.findByPk(id)`. -/
def Card.findByPk (db : DB) (i : Nat) : Option Card :=
  db.cards.find? (fun c => c.id == i)

/-- `Column.findByPk(id)`. -/
def Column.findByPk (db : DB) (i : Nat) : Option Column :=
  db.columns.find? (fun c => c.id == i)

/-- SQL `MAX(position)` with `(max || 0)` null-coalescing: an empty table
gives 0. -/
def listMax (l : List Nat) : Nat := l.foldr max 0

/-- The positions of the cards of one column, in table order. -/
def colPositions (cs : List Card) (col : Nat) : List Nat :=
  (cs.filter (fun c => c.columnId == col)).map Card.position

/-- A storage call inside a transaction: call number `i` returns its value
unless the fault oracle makes it throw (caught by the route's `catch`). -/
def scall (φ : Nat → Bool) (i : Nat) (x : α) : Except String α :=
  if φ i then .error "Server error" else .ok x

/-- The no-fault oracle: every storage call succeeds. -/
def noFault : Nat → Bool := fun _ => false

theorem scall_noFault (i : Nat) (x : α) : scall noFault i x = .ok x := rfl

/-- Committed state of a transactional route returning only a state:
`.ok` commits, `.error` rolls back to the pre-call database. -/
def commit (db : DB) : Except String DB → DB
  | .ok db' => db'
  | .error _ => db

/-- Committed state of a transactional route that also returns an entity. -/
def commitP (db : DB) : Except String (DB × α) → DB
  | .ok (db', _) => db'
  | .error _ => db

/-- The card row inserted by the card-create route. -/
def freshCard (nextId : Nat) (t : String) (d : Option String) (col pos : Nat)
    (tag : Option Nat) (uid : Nat) : Card :=
  { id := nextId, title := t, description := d, columnId := col, position := pos,
    tagId := tag, userId := some uid }

/-- The log row appended by the card-create route. -/
def createLog (id : Nat) (t toN : String) (toP uid : Nat) : LogEntry :=
  { cardId := some id, cardTitle := t, actionType := "created",
    fromColumn := none, toColumn := some toN, fromPosition := none,
    toPosition := some toP, userId := some uid }

/-- The row written by `currentCard.update(...)` in the card-update route. -/
def movedCard (c₀ : Card) (t : String) (d : Option String) (col p : Nat)
    (tag : Option Nat) : Card :=
  { c₀ with title := t, description := d, columnId := col, position := p,
            tagId := tag }

/-- The log row appended by the card-update route. -/
def moveLog (id : Nat) (t act fromN toN : String) (fromP toP uid : Nat) : LogEntry :=
  { cardId := some id, cardTitle := t, actionType := act,
    fromColumn := some fromN, toColumn := some toN, fromPosition := some fromP,
    toPosition := some toP, userId := some uid }

/-- The log row appended by the card-delete route. -/
def deleteLog (id : Nat) (t fromN : String) (uid : Nat) : LogEntry :=
  { cardId := some id, cardTitle := t, actionType := "deleted",
    fromColumn := some fromN, toColumn := none, fromPosition := none,
    toPosition := none, userId := some uid }

/-- JavaScript `a || b` for an optional string field: absent and `""` are
falsy. -/
def jsOrStr (a : Option String) (b : String) : String :=
  match a with
  | some s => if s = "" then b else s
  | none => b

/-- JavaScript `a || b` for an optional numeric field: absent and `0` are
falsy. -/
def jsOrNat (a : Option Nat) (b : Nat) : Nat :=
  match a with
  | some p => if p = 0 then b else p
  | none => b

/-- The row written by `column.update(...)` in the column-update route. -/
def renamedColumn (col₀ : Column) (n : String) (p : Nat) : Column :=
  { col₀ with name := n, position := p }

/-- Embeds `router.post('/')` of src/server/routes/cards.js (create a card):
position = unfiltered column max + 1, insert, look up the column (404 and
rollback when absent), append one `created` log row, commit. -/
def createCard (φ : Nat → Bool) (db : DB) (nextId : Nat) (title : String)
    (description : Option String) (column_id : Nat) (tag_id : Option Nat)
    (userId : Nat) : Except String (DB × Card) :=
  match scall φ 0 (listMax (colPositions db.cards column_id)) with
  | .error e => .error e
  | .ok maxPosition =>
    let position := maxPosition + 1
    let card := freshCard nextId title description column_id position tag_id userId
    match scall φ 1 ({ db with cards := db.cards ++ [card] } : DB) with
    | .error e => .error e
    | .ok db1 =>
      match scall φ 2 (Column.findByPk db1 column_id) with
      | .error e => .error e
      | .ok none => .error "Column not found"
      | .ok (some column) =>
        match scall φ 3 ({ db1 with logs := db1.logs ++
            [createLog nextId title column.name position userId] } : DB) with
        | .error e => .error e
        | .ok db2 => .ok (db2, card)

/-- Embeds `router.put('/:id')` of src/server/routes/cards.js (update/move a
card).  Faithful to the source, including its slip: `currentCard.update(...)`
mutates the loaded instance, so the `actionType` branch afterwards compares
the request values against the already-updated fields (`updatedCard` here)
and can only ever pick `"updated"`.  `currentCard.Column.name` is read
before the shifts; when the card's column row is missing that read throws
(`.name` of null), the `catch` rolls back and answers 500. -/
def updateCard (φ : Nat → Bool) (db : DB) (id : Nat) (title : String)
    (description : Option String) (column_id : Nat) (position : Nat)
    (tag_id : Option Nat) (userId : Nat) : Except String (DB × Card) :=
  match scall φ 0 (Card.findByPk db id) with
  | .error e => .error e
  | .ok none => .error "Card not found"
  | .ok (some currentCard) =>
    match (Column.findByPk db currentCard.columnId).map Column.name with
    | none => .error "Server error"
    | some fromColumn =>
      let fromPosition := currentCard.position
      let toColumnRes : Except String String :=
        if column_id ≠ currentCard.columnId then
          match scall φ 1 (Column.findByPk db column_id) with
          | .error e => .error e
          | .ok none => .error "New column not found"
          | .ok (some newColumn) => .ok newColumn.name
        else .ok fromColumn
      match toColumnRes with
      | .error e => .error e
      | .ok toColumn =>
        let db1Res : Except String DB :=
          if column_id = currentCard.columnId ∧ position ≠ currentCard.position then
            if position < currentCard.position then
              scall φ 2 ({ db with cards := db.cards.map (fun c =>
                if c.columnId = column_id ∧ position ≤ c.position ∧
                    c.position < currentCard.position
                then { c with position := c.position + 1 } else c) } : DB)
            else
              scall φ 2 ({ db with cards := db.cards.map (fun c =>
                if c.columnId = column_id ∧ currentCard.position < c.position ∧
                    c.position ≤ position
                then { c with position := c.position - 1 } else c) } : DB)
          else if column_id ≠ currentCard.columnId then
            match scall φ 2 ({ db with cards := db.cards.map (fun c =>
                if c.columnId = column_id ∧ position ≤ c.position
                then { c with position := c.position + 1 } else c) } : DB) with
            | .error e => .error e
            | .ok dbA =>
              scall φ 3 ({ dbA with cards := dbA.cards.map (fun c =>
                if c.columnId = currentCard.columnId ∧ currentCard.position < c.position
                then { c with position := c.position - 1 } else c) } : DB)
          else .ok db
        match db1Res with
        | .error e => .error e
        | .ok db1 =>
          let updatedCard := movedCard currentCard title description column_id
            position tag_id
          match scall φ 4 ({ db1 with cards := db1.cards.map (fun c =>
              if c.id = currentCard.id then updatedCard else c) } : DB) with
          | .error e => .error e
          | .ok db2 =>
            let actionType :=
              if column_id ≠ updatedCard.columnId then "moved_column"
              else if position ≠ updatedCard.position then
                (if position < updatedCard.position then "moved_up" else "moved_down")
              else "updated"
            match scall φ 5 ({ db2 with logs := db2.logs ++
                [moveLog id title actionType fromColumn toColumn fromPosition
                  position userId] } : DB) with
            | .error e => .error e
            | .ok db3 => .ok (db3, updatedCard)

/-- Embeds `router.delete('/:id')` of src/server/routes/cards.js (delete a
card): destroy the row, close the gap in its column, append one `deleted`
log row.  `currentCard.Column.name` (loaded by the include) is `.name` of
null when the column row is missing, which throws and rolls back. -/
def deleteCard (φ : Nat → Bool) (db : DB) (id : Nat) (userId : Nat) :
    Except String DB :=
  match scall φ 0 (Card.findByPk db id) with
  | .error e => .error e
  | .ok none => .error "Card not found"
  | .ok (some currentCard) =>
    match (Column.findByPk db currentCard.columnId).map Column.name with
    | none => .error "Server error"
    | some fromColumnName =>
      match scall φ 1 ({ db with
          cards := db.cards.filter (fun c => ¬ c.id = id) } : DB) with
      | .error e => .error e
      | .ok db1 =>
        match scall φ 2 ({ db1 with cards := db1.cards.map (fun c =>
            if c.columnId = currentCard.columnId ∧ currentCard.position < c.position
            then { c with position := c.position - 1 } else c) } : DB) with
        | .error e => .error e
        | .ok db2 =>
          match scall φ 3 ({ db2 with logs := db2.logs ++
              [deleteLog id currentCard.title fromColumnName userId] } : DB) with
          | .error e => .error e
          | .ok db3 => .ok db3

/-- Embeds `router.post('/')` of the columns router (create a column).
`Column.max('position')` is unscoped: the maximum ranges over every user's
columns.  No transaction, no log row. -/
def createColumn (db : DB) (nextId : Nat) (name : String) (userId : Nat) :
    DB × Column :=
  let maxPosition := listMax (db.columns.map Column.position)
  let position := maxPosition + 1
  let column : Column := { id := nextId, name := name, position := position,
                           userId := some userId }
  ({ db with columns := db.columns ++ [column] }, column)

/-- Embeds `router.put('/:id')` of the columns router (update a column):
ownership check, then `if (position && position !== column.position)` shifts
(unscoped over all users' columns), then
`column.update(name || column.name, position || column.position)`.
No log row. -/
def updateColumn (db : DB) (id : Nat) (name : Option String)
    (position : Option Nat) (userId : Nat) : Except String (DB × Column) :=
  match Column.findByPk db id with
  | none => .error "Column not found"
  | some column =>
    if column.userId.any (fun u => u ≠ userId) then
      .error "Not authorized to update this column"
    else
      let db1 : DB :=
        match position with
        | some p =>
          if p ≠ 0 ∧ p ≠ column.position then
            if p < column.position then
              { db with columns := db.columns.map (fun c =>
                  if p ≤ c.position ∧ c.position < column.position
                  then { c with position := c.position + 1 } else c) }
            else
              { db with columns := db.columns.map (fun c =>
                  if column.position < c.position ∧ c.position ≤ p
                  then { c with position := c.position - 1 } else c) }
          else db
        | none => db
      let updated := renamedColumn column (jsOrStr name column.name)
        (jsOrNat position column.position)
      .ok ({ db1 with columns := db1.columns.map (fun c =>
              if c.id = id then updated else c) }, updated)

/-- Embeds `router.delete('/:id')` of the columns router (delete a column):
ownership check, bulk-destroy the column's cards (no log rows), destroy the
column, close the gap (unscoped over all users' columns).  No log row. -/
def deleteColumn (db : DB) (id : Nat) (userId : Nat) : Except String DB :=
  match Column.findByPk db id with
  | none => .error "Column not found"
  | some column =>
    if column.userId.any (fun u => u ≠ userId) then
      .error "Not authorized to delete this column"
    else
      let db1 : DB := { db with cards := db.cards.filter (fun c => ¬ c.columnId = id) }
      let db2 : DB := { db1 with columns := db1.columns.filter (fun c => ¬ c.id = id) }
      let db3 : DB := { db2 with columns := db2.columns.map (fun c =>
          if column.position < c.position then { c with position := c.position - 1 } else c) }
      .ok db3

/-!
### Dense position sets

`dense l` says the multiset of positions `l` is exactly `{1..N}` with
`N = l.length`: no duplicates, no gaps.
-/

/-- The positions form exactly the set `{1..N}`, `N` the number of entities. -/
def dense (l : List Nat) : Prop := l.Perm (List.range' 1 l.length)

instance (l : List Nat) : Decidable (dense l) :=
  List.decidablePerm l (List.range' 1 l.length)

theorem dense_of_perm_range' {l : List Nat} {n : Nat}
    (h : l.Perm (List.range' 1 n)) : dense l := by
  have hl : l.length = n := by simpa using h.length_eq
  rw [dense, hl]; exact h

theorem dense_nil : dense [] := by decide

/-- `foldr max` over a seed commutes with the seed. -/
theorem foldr_max_comm (a : Nat) (l : List Nat) :
    l.foldr max a = max a (l.foldr max 0) := by
  induction l with
  | nil => simp [List.foldr]
  | cons x xs ih => simp [List.foldr, ih, Nat.max_left_comm]

theorem listMax_append_singleton (l : List Nat) (a : Nat) :
    listMax (l ++ [a]) = max a (listMax l) := by
  show (l ++ [a]).foldr max 0 = max a (l.foldr max 0)
  rw [List.foldr_append]
  show l.foldr max (max a 0) = max a (l.foldr max 0)
  rw [Nat.max_zero, foldr_max_comm]

theorem listMax_perm {l l' : List Nat} (h : l.Perm l') : listMax l = listMax l' := by
  induction h with
  | nil => rfl
  | cons x _ ih => simp [listMax, List.foldr] at ih ⊢; rw [ih]
  | swap x y l => simp [listMax, List.foldr, Nat.max_left_comm]
  | trans _ _ ih1 ih2 => rw [ih1, ih2]

theorem listMax_range' (n : Nat) : listMax (List.range' 1 n) = n := by
  induction n with
  | zero => rfl
  | succ n ih =>
    rw [List.range'_concat, listMax_append_singleton, ih]
    omega

/-- SQL `MAX(position)` of a dense column is the number of its cards. -/
theorem listMax_of_dense {l : List Nat} (h : dense l) : listMax l = l.length := by
  rw [listMax_perm h, listMax_range']

/-- The position delta of opening a slot at `p` (`increment` with
`position >= p`). -/
def shiftUpFrom (p x : Nat) : Nat := if p ≤ x then x + 1 else x

/-- The position delta of closing the gap after `q` (`increment by -1` with
`position > q`). -/
def shiftDownPast (q x : Nat) : Nat := if q < x then x - 1 else x

theorem map_eq_self_of {α : Type} (l : List α) (f : α → α)
    (h : ∀ a ∈ l, f a = a) : l.map f = l := by
  induction l with
  | nil => rfl
  | cons x xs ih =>
    rw [List.map_cons, h x (List.mem_cons_self ..),
      ih (fun a ha => h a (List.mem_cons_of_mem _ ha))]

theorem map_shiftUpFrom_id {l : List Nat} {p : Nat} (h : ∀ x ∈ l, x < p) :
    l.map (shiftUpFrom p) = l := by
  refine map_eq_self_of l _ (fun x hx => ?_)
  simp only [shiftUpFrom]
  rw [if_neg (by have := h x hx; omega)]

theorem map_add_one_range' (s n : Nat) :
    (List.range' s n).map (fun x => x + 1) = List.range' (s + 1) n := by
  induction n generalizing s with
  | zero => rfl
  | succ n ih => rw [List.range'_succ, List.range'_succ, List.map_cons, ih]

theorem map_sub_one_range' (s n : Nat) :
    (List.range' (s + 1) n).map (fun x => x - 1) = List.range' s n := by
  induction n generalizing s with
  | zero => rfl
  | succ n ih =>
    rw [List.range'_succ, List.range'_succ, List.map_cons, ih]
    simp

/-- Opening a slot at `p` in a dense multiset of size `n` and inserting the
moved entity at `p` yields a dense multiset of size `n + 1`, for any
`1 ≤ p ≤ n + 1`. -/
theorem insert_perm {m : List Nat} {n p : Nat} (hm : m.Perm (List.range' 1 n))
    (hp1 : 1 ≤ p) (hp2 : p ≤ n + 1) :
    (p :: m.map (shiftUpFrom p)).Perm (List.range' 1 (n + 1)) := by
  obtain ⟨a, rfl⟩ : ∃ a, p = a + 1 := ⟨p - 1, by omega⟩
  obtain ⟨b, rfl⟩ : ∃ b, n = a + b := ⟨n - a, by omega⟩
  have hsplit : List.range' 1 (a + b) = List.range' 1 a ++ List.range' (a + 1) b := by
    have h0 := List.range'_append 1 a b 1
    simp only [Nat.one_mul] at h0
    rw [show 1 + a = a + 1 from by omega, show b + a = a + b from by omega] at h0
    exact h0.symm
  have hmap : (List.range' 1 a ++ List.range' (a + 1) b).map (shiftUpFrom (a + 1)) =
      List.range' 1 a ++ List.range' (a + 2) b := by
    rw [List.map_append]
    congr 1
    · exact map_shiftUpFrom_id (fun x hx => by
        rw [List.mem_range'_1] at hx
        omega)
    · have hc1 : (List.range' (a + 1) b).map (shiftUpFrom (a + 1)) =
          (List.range' (a + 1) b).map (fun x => x + 1) :=
        List.map_congr_left (fun x hx => by
          rw [List.mem_range'_1] at hx
          simp only [shiftUpFrom]
          rw [if_pos (by omega)])
      rw [hc1, map_add_one_range']
  have hchain : ((a + 1) :: m.map (shiftUpFrom (a + 1))).Perm
      ((a + 1) :: (List.range' 1 a ++ List.range' (a + 2) b)) := by
    refine List.Perm.cons _ ?_
    rw [← hmap]
    exact (hm.trans (by rw [hsplit])).map _
  refine hchain.trans ?_
  refine (List.perm_middle.symm).trans ?_
  have h2 : List.range' 1 a ++ (a + 1) :: List.range' (a + 2) b =
      List.range' 1 a ++ List.range' (a + 1) (b + 1) := by
    rw [List.range'_succ]
  rw [h2]
  have h3 := List.range'_append 1 a (b + 1) 1
  simp only [Nat.one_mul] at h3
  rw [show 1 + a = a + 1 from by omega, show b + 1 + a = a + b + 1 from by omega] at h3
  rw [h3]

theorem not_mem_of_cons_perm_range' {m : List Nat} {q n : Nat}
    (h : (q :: m).Perm (List.range' 1 n)) : q ∉ m := by
  have hnd : (q :: m).Nodup := h.symm.nodup (List.nodup_range' 1 n)
  exact (List.nodup_cons.mp hnd).1

/-- Removing the entity at position `q` from a dense multiset of size `n`
and closing the gap yields a dense multiset of size `n - 1`. -/
theorem remove_perm {m : List Nat} {n q : Nat}
    (hm : (q :: m).Perm (List.range' 1 n)) :
    (m.map (shiftDownPast q)).Perm (List.range' 1 (n - 1)) := by
  have hq : q ∈ List.range' 1 n := hm.mem_iff.mp (List.mem_cons_self q m)
  rw [List.mem_range'_1] at hq
  obtain ⟨a, rfl⟩ : ∃ a, q = a + 1 := ⟨q - 1, by omega⟩
  obtain ⟨b, rfl⟩ : ∃ b, n = a + 1 + b := ⟨n - (a + 1), by omega⟩
  have hm' : m.Perm ((List.range' 1 (a + 1 + b)).erase (a + 1)) :=
    (List.cons_perm_iff_perm_erase.mp hm).2
  have hsplit : List.range' 1 (a + 1 + b) =
      List.range' 1 a ++ (a + 1) :: List.range' (a + 2) b := by
    have h0 := List.range'_append 1 a (b + 1) 1
    simp only [Nat.one_mul] at h0
    rw [show 1 + a = a + 1 from by omega, List.range'_succ,
      show b + 1 + a = a + 1 + b from by omega] at h0
    exact h0.symm
  have herase : (List.range' 1 (a + 1 + b)).erase (a + 1) =
      List.range' 1 a ++ List.range' (a + 2) b := by
    rw [hsplit, List.erase_append_right _ (by
      intro hmem
      rw [List.mem_range'_1] at hmem
      omega), List.erase_cons_head]
  have hmap : (List.range' 1 a ++ List.range' (a + 2) b).map (shiftDownPast (a + 1)) =
      List.range' 1 a ++ List.range' (a + 1) b := by
    rw [List.map_append]
    congr 1
    · refine map_eq_self_of _ _ (fun x hx => ?_)
      rw [List.mem_range'_1] at hx
      simp only [shiftDownPast]
      rw [if_neg (by omega)]
    · have hc1 : (List.range' (a + 2) b).map (shiftDownPast (a + 1)) =
          (List.range' (a + 2) b).map (fun x => x - 1) :=
        List.map_congr_left (fun x hx => by
          rw [List.mem_range'_1] at hx
          simp only [shiftDownPast]
          rw [if_pos (by omega)])
      rw [hc1, map_sub_one_range']
  have hchain : (m.map (shiftDownPast (a + 1))).Perm
      (List.range' 1 a ++ List.range' (a + 1) b) := by
    rw [← hmap, ← herase]
    exact hm'.map _
  refine hchain.trans ?_
  have h3 := List.range'_append 1 a b 1
  simp only [Nat.one_mul] at h3
  rw [show 1 + a = a + 1 from by omega, show b + a = a + 1 + b - 1 from by omega] at h3
  rw [h3]

/-- The one-pass same-container upward reorder of the source equals closing
the gap at `q` then opening a slot at `p`, pointwise away from `q`. -/
theorem shift_comp_up {p q : Nat} (hpq : p < q) {x : Nat} (hx : x ≠ q) :
    (if p ≤ x ∧ x < q then x + 1 else x) = shiftUpFrom p (shiftDownPast q x) := by
  unfold shiftUpFrom shiftDownPast
  split_ifs <;> omega

/-- The one-pass same-container downward reorder of the source equals closing
the gap at `q` then opening a slot at `p`, pointwise away from `q`. -/
theorem shift_comp_down {p q : Nat} (hpq : q < p) {x : Nat} (_hx : x ≠ q) :
    (if q < x ∧ x ≤ p then x - 1 else x) = shiftUpFrom p (shiftDownPast q x) := by
  unfold shiftUpFrom shiftDownPast
  split_ifs <;> omega

/-!
### Glue: `colPositions` under the list operations of the routes
-/

theorem colPositions_append (cs ds : List Card) (col : Nat) :
    colPositions (cs ++ ds) col = colPositions cs col ++ colPositions ds col := by
  simp [colPositions, List.filter_append]

theorem colPositions_cons (c : Card) (cs : List Card) (col : Nat) :
    colPositions (c :: cs) col =
      if c.columnId = col then c.position :: colPositions cs col
      else colPositions cs col := by
  rw [colPositions, List.filter_cons]
  by_cases h : c.columnId = col
  · rw [if_pos (by simpa using h), if_pos h, List.map_cons]; rfl
  · rw [if_neg (by simpa using h), if_neg h]; rfl

/-- A bulk position update whose where-clause only touches column `col`
acts on that column's position list as `List.map g`. -/
theorem colPositions_map (cs : List Card) (f : Card → Card) (col : Nat) (g : Nat → Nat)
    (hcol : ∀ c, (f c).columnId = c.columnId)
    (hpos : ∀ c, c.columnId = col → (f c).position = g c.position) :
    colPositions (cs.map f) col = (colPositions cs col).map g := by
  induction cs with
  | nil => rfl
  | cons c cs ih =>
    rw [List.map_cons, colPositions_cons, colPositions_cons, hcol]
    by_cases h : c.columnId = col
    · rw [if_pos h, if_pos h, List.map_cons, ih, hpos c h]
    · rw [if_neg h, if_neg h, ih]

/-- A bulk position update that fixes the positions of column `col` leaves
that column's position list unchanged. -/
theorem colPositions_map_id (cs : List Card) (f : Card → Card) (col : Nat)
    (hcol : ∀ c, (f c).columnId = c.columnId)
    (hpos : ∀ c, c.columnId = col → (f c).position = c.position) :
    colPositions (cs.map f) col = colPositions cs col := by
  rw [colPositions_map cs f col id hcol (fun c h => hpos c h), List.map_id]

/-- `Card.destroy where columnId = cid` empties column `cid` and leaves
every other column's position list unchanged. -/
theorem colPositions_filter_col (cs : List Card) (cid col : Nat) :
    colPositions (cs.filter (fun c => ¬ c.columnId = cid)) col =
      if col = cid then [] else colPositions cs col := by
  induction cs with
  | nil => by_cases h : col = cid <;> simp [colPositions, h]
  | cons c cs ih =>
    rw [List.filter_cons]
    by_cases hc : c.columnId = cid
    · rw [if_neg (by simpa using hc), ih, colPositions_cons]
      by_cases h : col = cid
      · rw [if_pos h, if_pos h]
      · rw [if_neg h, if_neg h,
          if_neg (fun hcc => h (by rw [← hcc]; exact hc))]
    · rw [if_pos (by simpa using hc), colPositions_cons, ih, colPositions_cons]
      by_cases h : col = cid
      · simp [h, hc]
      · simp [h]

theorem colPositions_nil_of_not_mem {cs : List Card} {col : Nat}
    (h : col ∉ cs.map Card.columnId) : colPositions cs col = [] := by
  induction cs with
  | nil => rfl
  | cons c cs ih =>
    rw [List.map_cons, List.mem_cons] at h
    push_neg at h
    rw [colPositions_cons, if_neg (fun hc => h.1 hc.symm), ih h.2]

theorem denseAll_iff (cs : List Card) :
    (∀ col, dense (colPositions cs col)) ↔
      ∀ col ∈ cs.map Card.columnId, dense (colPositions cs col) := by
  constructor
  · exact fun h col _ => h col
  · intro h col
    by_cases hc : col ∈ cs.map Card.columnId
    · exact h col hc
    · rw [colPositions_nil_of_not_mem hc]; exact dense_nil

instance (cs : List Card) : Decidable (∀ col, dense (colPositions cs col)) :=
  decidable_of_iff _ (denseAll_iff cs).symm

/-!
### Glue: locating a row by primary key
-/

/-- A successful `findByPk` splits the table around the unique row with the
requested id. -/
theorem findByPk_decomp {db : DB} {i : Nat} {c₀ : Card}
    (hnd : (db.cards.map Card.id).Nodup)
    (hf : Card.findByPk db i = some c₀) :
    c₀.id = i ∧ ∃ s t, db.cards = s ++ c₀ :: t ∧
      (∀ c ∈ s, c.id ≠ i) ∧ (∀ c ∈ t, c.id ≠ i) := by
  have hid : c₀.id = i := by simpa using List.find?_some hf
  have hmem : c₀ ∈ db.cards := List.mem_of_find?_eq_some hf
  obtain ⟨s, t, hst⟩ := List.append_of_mem hmem
  rw [hst, List.map_append, List.map_cons, List.nodup_append] at hnd
  refine ⟨hid, s, t, hst, ?_, ?_⟩
  · intro c hc hcid
    exact hnd.2.2 (List.mem_map_of_mem Card.id hc)
      (by rw [hcid, ← hid]; exact List.mem_cons_self ..)
  · intro c hc hcid
    have h2 := (List.nodup_cons.mp hnd.2.1).1
    exact h2 (by rw [hid, ← hcid]; exact List.mem_map_of_mem Card.id hc)

theorem filter_ne_id_decomp {s t : List Card} {c₀ : Card} {i : Nat}
    (hs : ∀ c ∈ s, c.id ≠ i) (ht : ∀ c ∈ t, c.id ≠ i) (h0 : c₀.id = i) :
    (s ++ c₀ :: t).filter (fun c => ¬ c.id = i) = s ++ t := by
  rw [List.filter_append, List.filter_cons, if_neg (by simp [h0]),
    List.filter_eq_self.mpr (fun c hc => by simpa using hs c hc),
    List.filter_eq_self.mpr (fun c hc => by simpa using ht c hc)]

theorem map_upd_decomp {s t : List Card} {c₀ nc : Card} {i : Nat}
    (hs : ∀ c ∈ s, c.id ≠ i) (ht : ∀ c ∈ t, c.id ≠ i) (h0 : c₀.id = i) :
    (s ++ c₀ :: t).map (fun c => if c.id = i then nc else c) = s ++ nc :: t := by
  rw [List.map_append, List.map_cons, if_pos h0,
    map_eq_self_of _ _ (fun c hc => by rw [if_neg (hs c hc)]),
    map_eq_self_of _ _ (fun c hc => by rw [if_neg (ht c hc)])]

theorem mapIds_eq (cs : List Card) (f : Card → Card) (h : ∀ c, (f c).id = c.id) :
    (cs.map f).map Card.id = cs.map Card.id := by
  rw [List.map_map]
  exact List.map_congr_left (fun c _ => h c)

/-!
### Evaluation lemmas: each control-flow path of the routes, in closed form
-/

theorem updateCard_eval_notfound {db : DB} {id : Nat}
    (hfind : Card.findByPk db id = none) (t : String) (d : Option String)
    (col p : Nat) (tag : Option Nat) (uid : Nat) :
    updateCard noFault db id t d col p tag uid = .error "Card not found" := by
  unfold updateCard
  rw [scall_noFault, hfind]

theorem updateCard_eval_nocol {db : DB} {id : Nat} {c₀ : Card}
    (hfind : Card.findByPk db id = some c₀)
    (hfrom : Column.findByPk db c₀.columnId = none) (t : String)
    (d : Option String) (col p : Nat) (tag : Option Nat) (uid : Nat) :
    updateCard noFault db id t d col p tag uid = .error "Server error" := by
  unfold updateCard
  rw [scall_noFault, hfind]
  simp only [hfrom, Option.map_none']

theorem updateCard_eval_same_same {db : DB} {id : Nat} {c₀ : Card} {fc : Column}
    (hfind : Card.findByPk db id = some c₀)
    (hfrom : Column.findByPk db c₀.columnId = some fc)
    (t : String) (d : Option String) (tag : Option Nat) (uid : Nat) :
    updateCard noFault db id t d c₀.columnId c₀.position tag uid =
      .ok ({ db with
             cards := db.cards.map (fun c => if c.id = c₀.id then
               movedCard c₀ t d c₀.columnId c₀.position tag else c),
             logs := db.logs ++
               [moveLog id t "updated" fc.name fc.name c₀.position c₀.position uid] },
           movedCard c₀ t d c₀.columnId c₀.position tag) := by
  unfold updateCard
  rw [scall_noFault, hfind]
  simp only [hfrom, Option.map_some']
  simp [scall_noFault, movedCard, moveLog]

theorem updateCard_eval_same_up {db : DB} {id : Nat} {c₀ : Card} {fc : Column}
    (hfind : Card.findByPk db id = some c₀)
    (hfrom : Column.findByPk db c₀.columnId = some fc)
    (t : String) (d : Option String) {p : Nat} (tag : Option Nat) (uid : Nat)
    (hp : p < c₀.position) :
    updateCard noFault db id t d c₀.columnId p tag uid =
      .ok ({ db with
             cards := (db.cards.map (fun c =>
               if c.columnId = c₀.columnId ∧ p ≤ c.position ∧ c.position < c₀.position
               then { c with position := c.position + 1 } else c)).map (fun c =>
                 if c.id = c₀.id then movedCard c₀ t d c₀.columnId p tag else c),
             logs := db.logs ++
               [moveLog id t "updated" fc.name fc.name c₀.position p uid] },
           movedCard c₀ t d c₀.columnId p tag) := by
  unfold updateCard
  rw [scall_noFault, hfind]
  simp only [hfrom, Option.map_some']
  simp [scall_noFault, movedCard, moveLog, hp, hp.ne]

theorem updateCard_eval_same_down {db : DB} {id : Nat} {c₀ : Card} {fc : Column}
    (hfind : Card.findByPk db id = some c₀)
    (hfrom : Column.findByPk db c₀.columnId = some fc)
    (t : String) (d : Option String) {p : Nat} (tag : Option Nat) (uid : Nat)
    (hp : c₀.position < p) :
    updateCard noFault db id t d c₀.columnId p tag uid =
      .ok ({ db with
             cards := (db.cards.map (fun c =>
               if c.columnId = c₀.columnId ∧ c₀.position < c.position ∧ c.position ≤ p
               then { c with position := c.position - 1 } else c)).map (fun c =>
                 if c.id = c₀.id then movedCard c₀ t d c₀.columnId p tag else c),
             logs := db.logs ++
               [moveLog id t "updated" fc.name fc.name c₀.position p uid] },
           movedCard c₀ t d c₀.columnId p tag) := by
  unfold updateCard
  rw [scall_noFault, hfind]
  simp only [hfrom, Option.map_some']
  simp [scall_noFault, movedCard, moveLog, hp.ne', Nat.lt_asymm hp]

theorem updateCard_eval_cross_notfound {db : DB} {id : Nat} {c₀ : Card}
    {fc : Column} (hfind : Card.findByPk db id = some c₀)
    (hfrom : Column.findByPk db c₀.columnId = some fc)
    (t : String) (d : Option String) {col : Nat} (p : Nat) (tag : Option Nat)
    (uid : Nat) (hcol : col ≠ c₀.columnId)
    (hnew : Column.findByPk db col = none) :
    updateCard noFault db id t d col p tag uid =
      .error "New column not found" := by
  unfold updateCard
  rw [scall_noFault, hfind]
  simp only [hfrom, Option.map_some']
  simp [scall_noFault, hcol, hnew]

theorem updateCard_eval_cross {db : DB} {id : Nat} {c₀ : Card} {fc nc : Column}
    (hfind : Card.findByPk db id = some c₀)
    (hfrom : Column.findByPk db c₀.columnId = some fc)
    (t : String) (d : Option String) {col : Nat} (p : Nat) (tag : Option Nat)
    (uid : Nat) (hcol : col ≠ c₀.columnId)
    (hnew : Column.findByPk db col = some nc) :
    updateCard noFault db id t d col p tag uid =
      .ok ({ db with
             cards := ((db.cards.map (fun c =>
               if c.columnId = col ∧ p ≤ c.position
               then { c with position := c.position + 1 } else c)).map (fun c =>
                 if c.columnId = c₀.columnId ∧ c₀.position < c.position
                 then { c with position := c.position - 1 } else c)).map (fun c =>
                   if c.id = c₀.id then movedCard c₀ t d col p tag else c),
             logs := db.logs ++
               [moveLog id t "updated" fc.name nc.name c₀.position p uid] },
           movedCard c₀ t d col p tag) := by
  unfold updateCard
  rw [scall_noFault, hfind]
  simp only [hfrom, Option.map_some']
  simp [scall_noFault, movedCard, moveLog, hcol, hnew]

theorem createCard_eval {db : DB} {column_id : Nat} {column : Column}
    (hcol : Column.findByPk db column_id = some column) (nextId : Nat)
    (t : String) (d : Option String) (tag : Option Nat) (uid : Nat) :
    createCard noFault db nextId t d column_id tag uid =
      .ok ({ db with
             cards := db.cards ++ [freshCard nextId t d column_id
               (listMax (colPositions db.cards column_id) + 1) tag uid],
             logs := db.logs ++ [createLog nextId t column.name
               (listMax (colPositions db.cards column_id) + 1) uid] },
           freshCard nextId t d column_id
             (listMax (colPositions db.cards column_id) + 1) tag uid) := by
  unfold createCard
  simp only [scall_noFault]
  have : Column.findByPk
      ({ db with cards := db.cards ++ [freshCard nextId t d column_id
        (listMax (colPositions db.cards column_id) + 1) tag uid] } : DB) column_id =
      some column := hcol
  rw [this]

theorem createCard_eval_nocol {db : DB} {column_id : Nat}
    (hcol : Column.findByPk db column_id = none) (nextId : Nat)
    (t : String) (d : Option String) (tag : Option Nat) (uid : Nat) :
    createCard noFault db nextId t d column_id tag uid =
      .error "Column not found" := by
  unfold createCard
  simp only [scall_noFault]
  have : Column.findByPk
      ({ db with cards := db.cards ++ [freshCard nextId t d column_id
        (listMax (colPositions db.cards column_id) + 1) tag uid] } : DB) column_id =
      none := hcol
  rw [this]

theorem deleteCard_eval_notfound {db : DB} {id : Nat}
    (hfind : Card.findByPk db id = none) (uid : Nat) :
    deleteCard noFault db id uid = .error "Card not found" := by
  unfold deleteCard
  rw [scall_noFault, hfind]

theorem deleteCard_eval_nocol {db : DB} {id : Nat} {c₀ : Card}
    (hfind : Card.findByPk db id = some c₀)
    (hfrom : Column.findByPk db c₀.columnId = none) (uid : Nat) :
    deleteCard noFault db id uid = .error "Server error" := by
  unfold deleteCard
  rw [scall_noFault, hfind]
  simp only [hfrom, Option.map_none']

theorem deleteCard_eval {db : DB} {id : Nat} {c₀ : Card} {fc : Column}
    (hfind : Card.findByPk db id = some c₀)
    (hfrom : Column.findByPk db c₀.columnId = some fc) (uid : Nat) :
    deleteCard noFault db id uid =
      .ok { db with
            cards := (db.cards.filter (fun c => ¬ c.id = id)).map (fun c =>
              if c.columnId = c₀.columnId ∧ c₀.position < c.position
              then { c with position := c.position - 1 } else c),
            logs := db.logs ++ [deleteLog id c₀.title fc.name uid] } := by
  unfold deleteCard
  rw [scall_noFault, hfind]
  simp only [hfrom, Option.map_some']
  simp [scall_noFault]

theorem updateColumn_eval_notfound {db : DB} {id : Nat}
    (hfind : Column.findByPk db id = none) (name : Option String)
    (position : Option Nat) (uid : Nat) :
    updateColumn db id name position uid = .error "Column not found" := by
  unfold updateColumn
  rw [hfind]

theorem updateColumn_eval_forbidden {db : DB} {id : Nat} {col₀ : Column} {o : Nat}
    (hfind : Column.findByPk db id = some col₀) (hown : col₀.userId = some o)
    (name : Option String) (position : Option Nat) {uid : Nat} (hne : o ≠ uid) :
    updateColumn db id name position uid =
      .error "Not authorized to update this column" := by
  unfold updateColumn
  rw [hfind]
  simp [hown, hne]

theorem updateColumn_eval_noshift {db : DB} {id : Nat} {col₀ : Column}
    (hfind : Column.findByPk db id = some col₀)
    (hperm : col₀.userId = none ∨ col₀.userId = some uid)
    (name : Option String) {position : Option Nat}
    (hpos : position = none ∨ position = some 0 ∨ position = some col₀.position) :
    updateColumn db id name position uid =
      .ok ({ db with columns := db.columns.map (fun c => if c.id = id then
               renamedColumn col₀ (jsOrStr name col₀.name) col₀.position else c) },
           renamedColumn col₀ (jsOrStr name col₀.name) col₀.position) := by
  unfold updateColumn
  rw [hfind]
  rcases hperm with h | h <;> rcases hpos with hp | hp | hp <;>
    subst hp <;> simp [h, jsOrNat]

theorem updateColumn_eval_up {db : DB} {id : Nat} {col₀ : Column}
    (hfind : Column.findByPk db id = some col₀)
    (hperm : col₀.userId = none ∨ col₀.userId = some uid)
    (name : Option String) {p : Nat} (hp0 : p ≠ 0) (hlt : p < col₀.position) :
    updateColumn db id name (some p) uid =
      .ok ({ db with columns := (db.columns.map (fun c =>
               if p ≤ c.position ∧ c.position < col₀.position
               then { c with position := c.position + 1 } else c)).map (fun c =>
                 if c.id = id then
                   renamedColumn col₀ (jsOrStr name col₀.name) p else c) },
           renamedColumn col₀ (jsOrStr name col₀.name) p) := by
  unfold updateColumn
  rw [hfind]
  rcases hperm with h | h <;> simp [h, jsOrNat, hp0, hlt, hlt.ne]

theorem updateColumn_eval_down {db : DB} {id : Nat} {col₀ : Column}
    (hfind : Column.findByPk db id = some col₀)
    (hperm : col₀.userId = none ∨ col₀.userId = some uid)
    (name : Option String) {p : Nat} (hp0 : p ≠ 0) (hgt : col₀.position < p) :
    updateColumn db id name (some p) uid =
      .ok ({ db with columns := (db.columns.map (fun c =>
               if col₀.position < c.position ∧ c.position ≤ p
               then { c with position := c.position - 1 } else c)).map (fun c =>
                 if c.id = id then
                   renamedColumn col₀ (jsOrStr name col₀.name) p else c) },
           renamedColumn col₀ (jsOrStr name col₀.name) p) := by
  unfold updateColumn
  rw [hfind]
  rcases hperm with h | h <;>
    simp [h, jsOrNat, hp0, hgt.ne', Nat.lt_asymm hgt]

theorem deleteColumn_eval_notfound {db : DB} {id : Nat}
    (hfind : Column.findByPk db id = none) (uid : Nat) :
    deleteColumn db id uid = .error "Column not found" := by
  unfold deleteColumn
  rw [hfind]

theorem deleteColumn_eval_forbidden {db : DB} {id : Nat} {col₀ : Column} {o : Nat}
    (hfind : Column.findByPk db id = some col₀) (hown : col₀.userId = some o)
    {uid : Nat} (hne : o ≠ uid) :
    deleteColumn db id uid =
      .error "Not authorized to delete this column" := by
  unfold deleteColumn
  rw [hfind]
  simp [hown, hne]

theorem deleteColumn_eval {db : DB} {id : Nat} {col₀ : Column}
    (hfind : Column.findByPk db id = some col₀)
    (hperm : col₀.userId = none ∨ col₀.userId = some uid) :
    deleteColumn db id uid =
      .ok { db with
            cards := db.cards.filter (fun c => ¬ c.columnId = id),
            columns := (db.columns.filter (fun c => ¬ c.id = id)).map (fun c =>
              if col₀.position < c.position
              then { c with position := c.position - 1 } else c) } := by
  unfold deleteColumn
  rw [hfind]
  rcases hperm with h | h <;> simp [h]

/-!
### Density preservation, mid-level: list surgery around the moved entity
-/

theorem colPositions_middle (s t : List Card) (x : Card) (col : Nat) :
    colPositions (s ++ x :: t) col =
      colPositions s col ++
        ((if x.columnId = col then [x.position] else []) ++ colPositions t col) := by
  rw [colPositions_append, colPositions_cons]
  by_cases h : x.columnId = col
  · rw [if_pos h, if_pos h]; rfl
  · rw [if_neg h, if_neg h]; rfl

/-- Opening a slot at `p` and inserting the moved entity preserves density
when `1 ≤ p ≤ N + 1`. -/
theorem dense_shift_insert {u v : List Nat} {p : Nat} (hd : dense (u ++ v))
    (hp1 : 1 ≤ p) (hp2 : p ≤ (u ++ v).length + 1) :
    dense (u.map (shiftUpFrom p) ++ p :: v.map (shiftUpFrom p)) := by
  have h1 : (u.map (shiftUpFrom p) ++ p :: v.map (shiftUpFrom p)).Perm
      (p :: (u ++ v).map (shiftUpFrom p)) := by
    rw [List.map_append]
    exact List.perm_middle
  exact dense_of_perm_range' (h1.trans (insert_perm hd hp1 hp2))

/-- Removing the entity at position `q` and closing the gap preserves
density. -/
theorem dense_shift_remove {u v : List Nat} {q : Nat} (hd : dense (u ++ q :: v)) :
    dense (u.map (shiftDownPast q) ++ v.map (shiftDownPast q)) := by
  have hq : (q :: (u ++ v)).Perm (List.range' 1 (u ++ q :: v).length) :=
    (List.perm_middle.symm).trans hd
  have h2 := remove_perm hq
  rw [← List.map_append]
  exact dense_of_perm_range' h2

/-- The one-pass same-container move to a lower position preserves density
when `1 ≤ p ≤ N`. -/
theorem dense_shift_reorder_up {u v : List Nat} {p q : Nat}
    (hd : dense (u ++ q :: v)) (hp1 : 1 ≤ p)
    (hp2 : p ≤ (u ++ q :: v).length) (hlt : p < q) :
    dense (u.map (fun x => if p ≤ x ∧ x < q then x + 1 else x) ++
      p :: v.map (fun x => if p ≤ x ∧ x < q then x + 1 else x)) := by
  have hq : (q :: (u ++ v)).Perm (List.range' 1 (u ++ q :: v).length) :=
    (List.perm_middle.symm).trans hd
  have hnot : q ∉ u ++ v := not_mem_of_cons_perm_range' hq
  have hcomp : (u ++ v).map (fun x => if p ≤ x ∧ x < q then x + 1 else x) =
      ((u ++ v).map (shiftDownPast q)).map (shiftUpFrom p) := by
    rw [List.map_map]
    exact List.map_congr_left (fun x hx =>
      shift_comp_up hlt (fun he => hnot (he ▸ hx)))
  have h2 := insert_perm (remove_perm hq) hp1 (by
    have := hq.length_eq
    simp only [List.length_cons, List.length_range'] at this
    simp only [List.length_append, List.length_cons] at hp2 ⊢
    omega)
  rw [← hcomp] at h2
  have h3 : (u.map (fun x => if p ≤ x ∧ x < q then x + 1 else x) ++
      p :: v.map (fun x => if p ≤ x ∧ x < q then x + 1 else x)).Perm
      (p :: (u ++ v).map (fun x => if p ≤ x ∧ x < q then x + 1 else x)) := by
    rw [List.map_append]
    exact List.perm_middle
  have hlen : (u ++ q :: v).length - 1 + 1 = (u ++ q :: v).length := by
    simp only [List.length_append, List.length_cons]
    omega
  rw [hlen] at h2
  exact dense_of_perm_range' (h3.trans h2)

/-- The one-pass same-container move to a higher position preserves density
when `1 ≤ p ≤ N`. -/
theorem dense_shift_reorder_down {u v : List Nat} {p q : Nat}
    (hd : dense (u ++ q :: v)) (hp2 : p ≤ (u ++ q :: v).length) (hgt : q < p) :
    dense (u.map (fun x => if q < x ∧ x ≤ p then x - 1 else x) ++
      p :: v.map (fun x => if q < x ∧ x ≤ p then x - 1 else x)) := by
  have hq : (q :: (u ++ v)).Perm (List.range' 1 (u ++ q :: v).length) :=
    (List.perm_middle.symm).trans hd
  have hnot : q ∉ u ++ v := not_mem_of_cons_perm_range' hq
  have hcomp : (u ++ v).map (fun x => if q < x ∧ x ≤ p then x - 1 else x) =
      ((u ++ v).map (shiftDownPast q)).map (shiftUpFrom p) := by
    rw [List.map_map]
    exact List.map_congr_left (fun x hx =>
      shift_comp_down hgt (fun he => hnot (he ▸ hx)))
  have hp1 : 1 ≤ p := by omega
  have h2 := insert_perm (remove_perm hq) hp1 (by
    have := hq.length_eq
    simp only [List.length_cons, List.length_range'] at this
    simp only [List.length_append, List.length_cons] at hp2 ⊢
    omega)
  rw [← hcomp] at h2
  have h3 : (u.map (fun x => if q < x ∧ x ≤ p then x - 1 else x) ++
      p :: v.map (fun x => if q < x ∧ x ≤ p then x - 1 else x)).Perm
      (p :: (u ++ v).map (fun x => if q < x ∧ x ≤ p then x - 1 else x)) := by
    rw [List.map_append]
    exact List.perm_middle
  have hlen : (u ++ q :: v).length - 1 + 1 = (u ++ q :: v).length := by
    simp only [List.length_append, List.length_cons]
    omega
  rw [hlen] at h2
  exact dense_of_perm_range' (h3.trans h2)

/-- Appending an entity at the unfiltered maximum-plus-one preserves
density. -/
theorem dense_append_max {l : List Nat} (h : dense l) :
    dense (l ++ [listMax l + 1]) := by
  have hN := listMax_of_dense h
  rw [hN]
  refine dense_of_perm_range'
    (?_ : (l ++ [l.length + 1]).Perm (List.range' 1 (l.length + 1)))
  have h1 : (l ++ [l.length + 1]).Perm ((l.length + 1) :: l) := by
    have h0 : (l ++ (l.length + 1) :: []).Perm ((l.length + 1) :: (l ++ [])) :=
      List.perm_middle
    rw [List.append_nil] at h0
    exact h0
  refine h1.trans ((h.cons _).trans ?_)
  have h2 : List.range' 1 (l.length + 1) = List.range' 1 l.length ++ [l.length + 1] := by
    rw [List.range'_concat]
    congr 1
    simp
    omega
  rw [h2]
  simpa using
    (List.perm_middle :
      (List.range' 1 l.length ++ (l.length + 1) :: []).Perm _).symm

/-!
### Glue for the columns table
-/

theorem colFindByPk_decomp {db : DB} {i : Nat} {c₀ : Column}
    (hnd : (db.columns.map Column.id).Nodup)
    (hf : Column.findByPk db i = some c₀) :
    c₀.id = i ∧ ∃ s t, db.columns = s ++ c₀ :: t ∧
      (∀ c ∈ s, c.id ≠ i) ∧ (∀ c ∈ t, c.id ≠ i) := by
  have hid : c₀.id = i := by simpa using List.find?_some hf
  have hmem : c₀ ∈ db.columns := List.mem_of_find?_eq_some hf
  obtain ⟨s, t, hst⟩ := List.append_of_mem hmem
  rw [hst, List.map_append, List.map_cons, List.nodup_append] at hnd
  refine ⟨hid, s, t, hst, ?_, ?_⟩
  · intro c hc hcid
    exact hnd.2.2 (List.mem_map_of_mem Column.id hc)
      (by rw [hcid, ← hid]; exact List.mem_cons_self ..)
  · intro c hc hcid
    have h2 := (List.nodup_cons.mp hnd.2.1).1
    exact h2 (by rw [hid, ← hcid]; exact List.mem_map_of_mem Column.id hc)

theorem filter_ne_id_decompC {s t : List Column} {c₀ : Column} {i : Nat}
    (hs : ∀ c ∈ s, c.id ≠ i) (ht : ∀ c ∈ t, c.id ≠ i) (h0 : c₀.id = i) :
    (s ++ c₀ :: t).filter (fun c => ¬ c.id = i) = s ++ t := by
  rw [List.filter_append, List.filter_cons, if_neg (by simp [h0]),
    List.filter_eq_self.mpr (fun c hc => by simpa using hs c hc),
    List.filter_eq_self.mpr (fun c hc => by simpa using ht c hc)]

theorem map_upd_decompC {s t : List Column} {c₀ nc : Column} {i : Nat}
    (hs : ∀ c ∈ s, c.id ≠ i) (ht : ∀ c ∈ t, c.id ≠ i) (h0 : c₀.id = i) :
    (s ++ c₀ :: t).map (fun c => if c.id = i then nc else c) = s ++ nc :: t := by
  rw [List.map_append, List.map_cons, if_pos h0,
    map_eq_self_of _ _ (fun c hc => by rw [if_neg (hs c hc)]),
    map_eq_self_of _ _ (fun c hc => by rw [if_neg (ht c hc)])]

theorem mapColIds_eq (cs : List Column) (f : Column → Column)
    (h : ∀ c, (f c).id = c.id) :
    (cs.map f).map Column.id = cs.map Column.id := by
  rw [List.map_map]
  exact List.map_congr_left (fun c _ => h c)

theorem mapColPos_eq (cs : List Column) (f : Column → Column) (g : Nat → Nat)
    (h : ∀ c, (f c).position = g c.position) :
    (cs.map f).map Column.position = (cs.map Column.position).map g := by
  rw [List.map_map, List.map_map]
  exact List.map_congr_left (fun c _ => h c)

/-!
### Operation sequences and the board invariant (claim C1)
-/

/-- One route call against the database: the operation alphabet of the
claimed invariant (card create/move/delete, column create/update/delete). -/
inductive BoardOp where
  | createCard (nextId : Nat) (title : String) (description : Option String)
      (column_id : Nat) (tag_id : Option Nat) (userId : Nat)
  | moveCard (id : Nat) (title : String) (description : Option String)
      (column_id : Nat) (position : Nat) (tag_id : Option Nat) (userId : Nat)
  | deleteCard (id : Nat) (userId : Nat)
  | createColumn (nextId : Nat) (name : String) (userId : Nat)
  | updateColumn (id : Nat) (name : Option String) (position : Option Nat)
      (userId : Nat)
  | deleteColumn (id : Nat) (userId : Nat)

/-- Committed database after one route call (fault-free storage). -/
def applyOp (db : DB) : BoardOp → DB
  | .createCard nextId t d col tag uid =>
      commitP db (createCard noFault db nextId t d col tag uid)
  | .moveCard id t d col p tag uid =>
      commitP db (updateCard noFault db id t d col p tag uid)
  | .deleteCard id uid => commit db (deleteCard noFault db id uid)
  | .createColumn nextId n uid => (createColumn db nextId n uid).1
  | .updateColumn id n p uid => commitP db (updateColumn db id n p uid)
  | .deleteColumn id uid => commit db (deleteColumn db id uid)

def applyOps (db : DB) : List BoardOp → DB
  | [] => db
  | op :: ops => applyOps (applyOp db op) ops

/-- Validity of one request: fresh primary keys for creates, and in-range
destination positions for moves (`[1, N]` within the same container,
`[1, M + 1]` into a different container, `[1, number of columns]` for a
column reorder). -/
def opValidB (db : DB) : BoardOp → Bool
  | .createCard nextId _ _ _ _ _ => decide (nextId ∉ db.cards.map Card.id)
  | .moveCard id _ _ col p _ _ =>
      match Card.findByPk db id with
      | none => true
      | some c =>
        if col = c.columnId then
          decide (1 ≤ p) && decide (p ≤ (colPositions db.cards col).length)
        else
          decide (1 ≤ p) && decide (p ≤ (colPositions db.cards col).length + 1)
  | .deleteCard _ _ => true
  | .createColumn nextId _ _ => decide (nextId ∉ db.columns.map Column.id)
  | .updateColumn _ _ pos _ =>
      match pos with
      | some p => decide (p = 0) || decide (p ≤ db.columns.length)
      | none => true
  | .deleteColumn _ _ => true

def validSeqB (db : DB) : List BoardOp → Bool
  | [] => true
  | op :: ops => opValidB db op && validSeqB (applyOp db op) ops

/-- The board invariant: unique primary keys, dense card positions inside
every column, and dense column positions over the whole (all-user) column
table. -/
def boardInv (db : DB) : Prop :=
  (db.cards.map Card.id).Nodup ∧ (db.columns.map Column.id).Nodup ∧
    (∀ col, dense (colPositions db.cards col)) ∧
    dense (db.columns.map Column.position)

instance (db : DB) : Decidable (boardInv db) := by
  unfold boardInv
  infer_instance

theorem mem_map_ne_id {s : List Card} {f : Card → Card} {i : Nat}
    (hf : ∀ c, (f c).id = c.id) (hs : ∀ c ∈ s, c.id ≠ i) :
    ∀ c ∈ s.map f, c.id ≠ i := by
  intro c hc
  obtain ⟨a, ha, rfl⟩ := List.mem_map.mp hc
  rw [hf a]
  exact hs a ha

theorem mem_map_ne_idC {s : List Column} {f : Column → Column} {i : Nat}
    (hf : ∀ c, (f c).id = c.id) (hs : ∀ c ∈ s, c.id ≠ i) :
    ∀ c ∈ s.map f, c.id ≠ i := by
  intro c hc
  obtain ⟨a, ha, rfl⟩ := List.mem_map.mp hc
  rw [hf a]
  exact hs a ha

theorem boardInv_createColumn {db : DB} (hinv : boardInv db) {nextId : Nat}
    (hfresh : nextId ∉ db.columns.map Column.id) (n : String) (uid : Nat) :
    boardInv (createColumn db nextId n uid).1 := by
  obtain ⟨hndc, hndk, hdense, hdensek⟩ := hinv
  refine ⟨hndc, ?_, hdense, ?_⟩
  · show ((db.columns ++
      [({ id := nextId, name := n,
          position := listMax (db.columns.map Column.position) + 1,
          userId := some uid } : Column)]).map Column.id).Nodup
    rw [List.map_append]
    refine List.nodup_append.mpr ⟨hndk, by simp, ?_⟩
    intro a ha hb
    simp only [List.map_cons, List.map_nil, List.mem_singleton] at hb
    subst hb
    exact hfresh ha
  · show dense ((db.columns ++
      [({ id := nextId, name := n,
          position := listMax (db.columns.map Column.position) + 1,
          userId := some uid } : Column)]).map Column.position)
    rw [List.map_append]
    exact dense_append_max hdensek

theorem boardInv_createCard {db : DB} (hinv : boardInv db) {nextId : Nat}
    (hfresh : nextId ∉ db.cards.map Card.id) (t : String) (d : Option String)
    (col : Nat) (tag : Option Nat) (uid : Nat) :
    boardInv (commitP db (createCard noFault db nextId t d col tag uid)) := by
  cases hcol : Column.findByPk db col with
  | none =>
    rw [createCard_eval_nocol hcol]
    exact hinv
  | some column =>
    rw [createCard_eval hcol]
    obtain ⟨hndc, hndk, hdense, hdensek⟩ := hinv
    refine ⟨?_, hndk, ?_, hdensek⟩
    · show ((db.cards ++ [freshCard nextId t d col
        (listMax (colPositions db.cards col) + 1) tag uid]).map Card.id).Nodup
      rw [List.map_append]
      refine List.nodup_append.mpr ⟨hndc, by simp, ?_⟩
      intro a ha hb
      simp only [freshCard, List.map_cons, List.map_nil, List.mem_singleton] at hb
      subst hb
      exact hfresh ha
    · intro c
      show dense (colPositions (db.cards ++ [freshCard nextId t d col
        (listMax (colPositions db.cards col) + 1) tag uid]) c)
      rw [colPositions_append]
      by_cases hc : col = c
      · subst hc
        have h1 : colPositions [freshCard nextId t d col
            (listMax (colPositions db.cards col) + 1) tag uid] col =
            [listMax (colPositions db.cards col) + 1] := by
          simp [colPositions_cons, freshCard, colPositions]
        rw [h1]
        exact dense_append_max (hdense col)
      · have h1 : colPositions [freshCard nextId t d col
            (listMax (colPositions db.cards col) + 1) tag uid] c = [] := by
          simp [colPositions_cons, freshCard, colPositions, hc]
        rw [h1, List.append_nil]
        exact hdense c

theorem boardInv_deleteColumn {db : DB} (hinv : boardInv db) (id uid : Nat) :
    boardInv (commit db (deleteColumn db id uid)) := by
  cases hfind : Column.findByPk db id with
  | none =>
    rw [deleteColumn_eval_notfound hfind]
    exact hinv
  | some col₀ =>
    have hstep : ∀ _ : col₀.userId = none ∨ col₀.userId = some uid,
        boardInv (commit db (deleteColumn db id uid)) := by
      intro hperm
      rw [deleteColumn_eval hfind hperm]
      obtain ⟨hndc, hndk, hdense, hdensek⟩ := hinv
      obtain ⟨hid, s, u, hst, hs, hu⟩ := colFindByPk_decomp hndk hfind
      have hfgapid : ∀ c : Column,
          ((if col₀.position < c.position
            then { c with position := c.position - 1 } else c) : Column).id = c.id := by
        intro c
        by_cases h : col₀.position < c.position <;> simp [h]
      have hfgappos : ∀ c : Column,
          ((if col₀.position < c.position
            then { c with position := c.position - 1 } else c) : Column).position =
            shiftDownPast col₀.position c.position := by
        intro c
        unfold shiftDownPast
        by_cases h : col₀.position < c.position <;> simp [h]
      refine ⟨?_, ?_, ?_, ?_⟩
      · show ((db.cards.filter (fun c => ¬ c.columnId = id)).map Card.id).Nodup
        exact ((List.filter_sublist _).map Card.id).nodup hndc
      · show (((db.columns.filter (fun c => ¬ c.id = id)).map _).map Column.id).Nodup
        rw [mapColIds_eq _ _ hfgapid]
        exact ((List.filter_sublist _).map Column.id).nodup hndk
      · intro c
        show dense (colPositions (db.cards.filter (fun c => ¬ c.columnId = id)) c)
        rw [colPositions_filter_col]
        by_cases hc : c = id
        · rw [if_pos hc]; exact dense_nil
        · rw [if_neg hc]; exact hdense c
      · show dense (((db.columns.filter (fun c => ¬ c.id = id)).map _).map Column.position)
        rw [hst, filter_ne_id_decompC hs hu hid,
          mapColPos_eq _ _ (shiftDownPast col₀.position) hfgappos, List.map_append]
        rw [List.map_append]
        have hd : dense (s.map Column.position ++ col₀.position :: u.map Column.position) := by
          have := hdensek
          rw [hst, List.map_append, List.map_cons] at this
          exact this
        exact dense_shift_remove hd
    cases hsU : col₀.userId with
    | none => exact hstep (Or.inl hsU)
    | some o =>
      by_cases ho : o = uid
      · exact hstep (Or.inr (by rw [hsU, ho]))
      · rw [deleteColumn_eval_forbidden hfind hsU ho]
        exact hinv

theorem boardInv_deleteCard {db : DB} (hinv : boardInv db) (id uid : Nat) :
    boardInv (commit db (deleteCard noFault db id uid)) := by
  cases hfind : Card.findByPk db id with
  | none =>
    rw [deleteCard_eval_notfound hfind]
    exact hinv
  | some c₀ =>
    cases hfrom : Column.findByPk db c₀.columnId with
    | none =>
      rw [deleteCard_eval_nocol hfind hfrom]
      exact hinv
    | some fc =>
      rw [deleteCard_eval hfind hfrom]
      obtain ⟨hndc, hndk, hdense, hdensek⟩ := hinv
      obtain ⟨hid, s, u, hst, hs, hu⟩ := findByPk_decomp hndc hfind
      have hfgapid : ∀ c : Card,
          ((if c.columnId = c₀.columnId ∧ c₀.position < c.position
            then { c with position := c.position - 1 } else c) : Card).id = c.id := by
        intro c
        by_cases h : c.columnId = c₀.columnId ∧ c₀.position < c.position <;> simp [h]
      have hfgapcol : ∀ c : Card,
          ((if c.columnId = c₀.columnId ∧ c₀.position < c.position
            then { c with position := c.position - 1 } else c) : Card).columnId =
          c.columnId := by
        intro c
        by_cases h : c.columnId = c₀.columnId ∧ c₀.position < c.position <;> simp [h]
      refine ⟨?_, hndk, ?_, hdensek⟩
      · show (((db.cards.filter (fun c => ¬ c.id = id)).map (fun c =>
          if c.columnId = c₀.columnId ∧ c₀.position < c.position
          then { c with position := c.position - 1 } else c)).map Card.id).Nodup
        rw [mapIds_eq _ _ hfgapid]
        exact ((List.filter_sublist _).map Card.id).nodup hndc
      · intro c
        show dense (colPositions ((db.cards.filter (fun c => ¬ c.id = id)).map (fun c =>
          if c.columnId = c₀.columnId ∧ c₀.position < c.position
          then { c with position := c.position - 1 } else c)) c)
        rw [hst, filter_ne_id_decomp hs hu hid]
        by_cases hc : c = c₀.columnId
        · subst hc
          have hmap : colPositions ((s ++ u).map (fun c =>
              if c.columnId = c₀.columnId ∧ c₀.position < c.position
              then { c with position := c.position - 1 } else c)) c₀.columnId =
              (colPositions (s ++ u) c₀.columnId).map (shiftDownPast c₀.position) := by
            refine colPositions_map _ _ _ _ hfgapcol ?_
            intro c hcc
            unfold shiftDownPast
            by_cases h : c₀.position < c.position
            · rw [if_pos ⟨hcc, h⟩, if_pos h]
            · rw [if_neg (fun hand => h hand.2), if_neg h]
          rw [hmap, colPositions_append, List.map_append]
          have hd : dense (colPositions s c₀.columnId ++
              c₀.position :: colPositions u c₀.columnId) := by
            have := hdense c₀.columnId
            rw [hst, colPositions_middle, if_pos rfl] at this
            exact this
          exact dense_shift_remove hd
        · have hmap : colPositions ((s ++ u).map (fun c =>
              if c.columnId = c₀.columnId ∧ c₀.position < c.position
              then { c with position := c.position - 1 } else c)) c =
              colPositions (s ++ u) c := by
            refine colPositions_map_id _ _ _ hfgapcol ?_
            intro cc hcc
            rw [if_neg (fun hand => hc (by rw [← hcc, hand.1]))]
          rw [hmap, colPositions_append]
          have := hdense c
          rw [hst, colPositions_middle, if_neg (fun h => hc h.symm),
            List.nil_append] at this
          exact this

theorem boardInv_updateColumn {db : DB} (hinv : boardInv db) (id : Nat)
    (name : Option String) {position : Option Nat} (uid : Nat)
    (hvp : ∀ p, position = some p → p = 0 ∨ p ≤ db.columns.length) :
    boardInv (commitP db (updateColumn db id name position uid)) := by
  cases hfind : Column.findByPk db id with
  | none =>
    rw [updateColumn_eval_notfound hfind]
    exact hinv
  | some col₀ =>
    have hstep : ∀ _ : col₀.userId = none ∨ col₀.userId = some uid,
        boardInv (commitP db (updateColumn db id name position uid)) := by
      intro hperm
      obtain ⟨hndc, hndk, hdense, hdensek⟩ := hinv
      obtain ⟨hid, s, u, hst, hs, hu⟩ := colFindByPk_decomp hndk hfind
      have hnoshift : ∀ _ : position = none ∨ position = some 0 ∨
          position = some col₀.position,
          boardInv (commitP db (updateColumn db id name position uid)) := by
        intro hpos
        rw [updateColumn_eval_noshift hfind hperm name hpos]
        refine ⟨hndc, ?_, hdense, ?_⟩
        · show ((db.columns.map (fun c => if c.id = id then
            renamedColumn col₀ (jsOrStr name col₀.name) col₀.position else c)).map
            Column.id).Nodup
          rw [hst, map_upd_decompC hs hu hid, List.map_append, List.map_cons]
          have h0 := hndk
          rw [hst, List.map_append, List.map_cons] at h0
          exact h0
        · show dense ((db.columns.map (fun c => if c.id = id then
            renamedColumn col₀ (jsOrStr name col₀.name) col₀.position else c)).map
            Column.position)
          rw [hst, map_upd_decompC hs hu hid, List.map_append, List.map_cons]
          have h0 := hdensek
          rw [hst, List.map_append, List.map_cons] at h0
          exact h0
      cases position with
      | none => exact hnoshift (Or.inl rfl)
      | some p =>
        by_cases hp0 : p = 0
        · exact hnoshift (Or.inr (Or.inl (by rw [hp0])))
        by_cases hpe : p = col₀.position
        · exact hnoshift (Or.inr (Or.inr (by rw [hpe])))
        have hbound : p ≤ db.columns.length := by
          rcases hvp p rfl with h | h
          · exact absurd h hp0
          · exact h
        have hlen : p ≤ (s.map Column.position ++
            col₀.position :: u.map Column.position).length := by
          have : db.columns.length = (s.map Column.position ++
              col₀.position :: u.map Column.position).length := by
            rw [hst]
            simp
          omega
        have hd : dense (s.map Column.position ++
            col₀.position :: u.map Column.position) := by
          have h0 := hdensek
          rw [hst, List.map_append, List.map_cons] at h0
          exact h0
        by_cases hlt : p < col₀.position
        · rw [updateColumn_eval_up hfind hperm name hp0 hlt]
          have hf1id : ∀ c : Column,
              ((if p ≤ c.position ∧ c.position < col₀.position
                then { c with position := c.position + 1 } else c) : Column).id =
              c.id := by
            intro c
            by_cases h : p ≤ c.position ∧ c.position < col₀.position <;> simp [h]
          have hf1pos : ∀ c : Column,
              ((if p ≤ c.position ∧ c.position < col₀.position
                then { c with position := c.position + 1 } else c) : Column).position =
              (fun x => if p ≤ x ∧ x < col₀.position then x + 1 else x) c.position := by
            intro c
            by_cases h : p ≤ c.position ∧ c.position < col₀.position <;> simp [h]
          have hf1c : ((if p ≤ col₀.position ∧ col₀.position < col₀.position
              then { col₀ with position := col₀.position + 1 } else col₀) : Column) =
              col₀ := by
            rw [if_neg (fun h => Nat.lt_irrefl _ h.2)]
          have hdecomp : (db.columns.map (fun c =>
              if p ≤ c.position ∧ c.position < col₀.position
              then { c with position := c.position + 1 } else c)).map (fun c =>
                if c.id = id then
                  renamedColumn col₀ (jsOrStr name col₀.name) p else c) =
              (s.map (fun c => if p ≤ c.position ∧ c.position < col₀.position
                then { c with position := c.position + 1 } else c)) ++
              renamedColumn col₀ (jsOrStr name col₀.name) p ::
              (u.map (fun c => if p ≤ c.position ∧ c.position < col₀.position
                then { c with position := c.position + 1 } else c)) := by
            rw [hst, List.map_append, List.map_cons, hf1c,
              map_upd_decompC (mem_map_ne_idC hf1id hs) (mem_map_ne_idC hf1id hu) hid]
          refine ⟨hndc, ?_, hdense, ?_⟩
          · show ((db.columns.map _).map _).map Column.id |>.Nodup
            rw [hdecomp, List.map_append, List.map_cons,
              mapColIds_eq _ _ hf1id, mapColIds_eq _ _ hf1id]
            have h0 := hndk
            rw [hst, List.map_append, List.map_cons] at h0
            exact h0
          · show dense (((db.columns.map _).map _).map Column.position)
            rw [hdecomp, List.map_append, List.map_cons,
              mapColPos_eq _ _ (fun x => if p ≤ x ∧ x < col₀.position then x + 1 else x) hf1pos,
              mapColPos_eq _ _ (fun x => if p ≤ x ∧ x < col₀.position then x + 1 else x) hf1pos]
            exact dense_shift_reorder_up hd (Nat.one_le_iff_ne_zero.mpr hp0) hlen hlt
        · have hgt : col₀.position < p := by omega
          rw [updateColumn_eval_down hfind hperm name hp0 hgt]
          have hf1id : ∀ c : Column,
              ((if col₀.position < c.position ∧ c.position ≤ p
                then { c with position := c.position - 1 } else c) : Column).id =
              c.id := by
            intro c
            by_cases h : col₀.position < c.position ∧ c.position ≤ p <;> simp [h]
          have hf1pos : ∀ c : Column,
              ((if col₀.position < c.position ∧ c.position ≤ p
                then { c with position := c.position - 1 } else c) : Column).position =
              (fun x => if col₀.position < x ∧ x ≤ p then x - 1 else x) c.position := by
            intro c
            by_cases h : col₀.position < c.position ∧ c.position ≤ p <;> simp [h]
          have hf1c : ((if col₀.position < col₀.position ∧ col₀.position ≤ p
              then { col₀ with position := col₀.position - 1 } else col₀) : Column) =
              col₀ := by
            rw [if_neg (fun h => Nat.lt_irrefl _ h.1)]
          have hdecomp : (db.columns.map (fun c =>
              if col₀.position < c.position ∧ c.position ≤ p
              then { c with position := c.position - 1 } else c)).map (fun c =>
                if c.id = id then
                  renamedColumn col₀ (jsOrStr name col₀.name) p else c) =
              (s.map (fun c => if col₀.position < c.position ∧ c.position ≤ p
                then { c with position := c.position - 1 } else c)) ++
              renamedColumn col₀ (jsOrStr name col₀.name) p ::
              (u.map (fun c => if col₀.position < c.position ∧ c.position ≤ p
                then { c with position := c.position - 1 } else c)) := by
            rw [hst, List.map_append, List.map_cons, hf1c,
              map_upd_decompC (mem_map_ne_idC hf1id hs) (mem_map_ne_idC hf1id hu) hid]
          refine ⟨hndc, ?_, hdense, ?_⟩
          · show ((db.columns.map _).map _).map Column.id |>.Nodup
            rw [hdecomp, List.map_append, List.map_cons,
              mapColIds_eq _ _ hf1id, mapColIds_eq _ _ hf1id]
            have h0 := hndk
            rw [hst, List.map_append, List.map_cons] at h0
            exact h0
          · show dense (((db.columns.map _).map _).map Column.position)
            rw [hdecomp, List.map_append, List.map_cons,
              mapColPos_eq _ _ (fun x => if col₀.position < x ∧ x ≤ p then x - 1 else x) hf1pos,
              mapColPos_eq _ _ (fun x => if col₀.position < x ∧ x ≤ p then x - 1 else x) hf1pos]
            exact dense_shift_reorder_down hd hlen hgt
    cases hsU : col₀.userId with
    | none => exact hstep (Or.inl hsU)
    | some o =>
      by_cases ho : o = uid
      · exact hstep (Or.inr (by rw [hsU, ho]))
      · rw [updateColumn_eval_forbidden hfind hsU name position ho]
        exact hinv

theorem boardInv_moveCard {db : DB} (hinv : boardInv db) (id : Nat) (t : String)
    (d : Option String) {col p : Nat} (tag : Option Nat) (uid : Nat)
    (hv : opValidB db (.moveCard id t d col p tag uid) = true) :
    boardInv (commitP db (updateCard noFault db id t d col p tag uid)) := by
  cases hfind : Card.findByPk db id with
  | none =>
    rw [updateCard_eval_notfound hfind]
    exact hinv
  | some c₀ =>
    cases hfrom : Column.findByPk db c₀.columnId with
    | none =>
      rw [updateCard_eval_nocol hfind hfrom]
      exact hinv
    | some fc =>
      obtain ⟨hndc, hndk, hdense, hdensek⟩ := hinv
      obtain ⟨hid, s, u, hst, hs, hu⟩ := findByPk_decomp hndc hfind
      have hs' : ∀ c ∈ s, c.id ≠ c₀.id := fun c hc => by
        rw [hid]; exact hs c hc
      have hu' : ∀ c ∈ u, c.id ≠ c₀.id := fun c hc => by
        rw [hid]; exact hu c hc
      simp only [opValidB, hfind] at hv
      by_cases hsame : col = c₀.columnId
      · rw [if_pos hsame] at hv
        rw [Bool.and_eq_true, decide_eq_true_eq, decide_eq_true_eq] at hv
        obtain ⟨hp1, hp2⟩ := hv
        subst hsame
        have hdco : dense (colPositions s c₀.columnId ++
            c₀.position :: colPositions u c₀.columnId) := by
          have h0 := hdense c₀.columnId
          rw [hst, colPositions_middle, if_pos rfl, List.singleton_append] at h0
          exact h0
        have hp2' : p ≤ (colPositions s c₀.columnId ++
            c₀.position :: colPositions u c₀.columnId).length := by
          have hlen : (colPositions db.cards c₀.columnId).length =
              (colPositions s c₀.columnId ++
                c₀.position :: colPositions u c₀.columnId).length := by
            rw [hst, colPositions_middle, if_pos rfl, List.singleton_append]
          omega
        by_cases hpe : p = c₀.position
        · subst hpe
          rw [updateCard_eval_same_same hfind hfrom t d tag uid]
          have hupdid : ∀ c : Card, ((if c.id = c₀.id then
              movedCard c₀ t d c₀.columnId c₀.position tag else c) : Card).id = c.id := by
            intro c
            by_cases h : c.id = c₀.id <;> simp [h, movedCard]
          refine ⟨?_, hndk, ?_, hdensek⟩
          · show ((db.cards.map _).map Card.id).Nodup
            rw [mapIds_eq _ _ hupdid]
            exact hndc
          · intro c
            show dense (colPositions (db.cards.map _) c)
            rw [hst, map_upd_decomp hs' hu' rfl, colPositions_middle]
            have h0 := hdense c
            rw [hst, colPositions_middle] at h0
            simpa [movedCard] using h0
        · by_cases hlt : p < c₀.position
          · rw [updateCard_eval_same_up hfind hfrom t d tag uid hlt]
            have hf1id : ∀ c : Card, ((if c.columnId = c₀.columnId ∧
                p ≤ c.position ∧ c.position < c₀.position
                then { c with position := c.position + 1 } else c) : Card).id = c.id := by
              intro c
              by_cases h : c.columnId = c₀.columnId ∧
                p ≤ c.position ∧ c.position < c₀.position <;> simp [h]
            have hf1col : ∀ c : Card, ((if c.columnId = c₀.columnId ∧
                p ≤ c.position ∧ c.position < c₀.position
                then { c with position := c.position + 1 } else c) : Card).columnId =
                c.columnId := by
              intro c
              by_cases h : c.columnId = c₀.columnId ∧
                p ≤ c.position ∧ c.position < c₀.position <;> simp [h]
            have hf1c₀ : ((if c₀.columnId = c₀.columnId ∧
                p ≤ c₀.position ∧ c₀.position < c₀.position
                then { c₀ with position := c₀.position + 1 } else c₀) : Card) = c₀ := by
              rw [if_neg (fun h => Nat.lt_irrefl _ h.2.2)]
            have hdecomp : (db.cards.map (fun c =>
                if c.columnId = c₀.columnId ∧ p ≤ c.position ∧ c.position < c₀.position
                then { c with position := c.position + 1 } else c)).map (fun c =>
                  if c.id = c₀.id then movedCard c₀ t d c₀.columnId p tag else c) =
                (s.map (fun c =>
                  if c.columnId = c₀.columnId ∧ p ≤ c.position ∧ c.position < c₀.position
                  then { c with position := c.position + 1 } else c)) ++
                movedCard c₀ t d c₀.columnId p tag ::
                (u.map (fun c =>
                  if c.columnId = c₀.columnId ∧ p ≤ c.position ∧ c.position < c₀.position
                  then { c with position := c.position + 1 } else c)) := by
              rw [hst, List.map_append, List.map_cons, hf1c₀,
                map_upd_decomp (mem_map_ne_id hf1id hs') (mem_map_ne_id hf1id hu') rfl]
            refine ⟨?_, hndk, ?_, hdensek⟩
            · show (((db.cards.map _).map _).map Card.id).Nodup
              rw [hdecomp, List.map_append, List.map_cons,
                mapIds_eq _ _ hf1id, mapIds_eq _ _ hf1id]
              have h0 := hndc
              rw [hst, List.map_append, List.map_cons] at h0
              exact h0
            · intro c
              show dense (colPositions ((db.cards.map _).map _) c)
              rw [hdecomp, colPositions_middle]
              by_cases hc : c = c₀.columnId
              · subst hc
                rw [colPositions_map _ _ _
                    (fun x => if p ≤ x ∧ x < c₀.position then x + 1 else x) hf1col
                    (fun cc hcc => by
                      simp only [hcc, eq_self_iff_true, true_and]
                      split_ifs <;> rfl),
                  colPositions_map _ _ _
                    (fun x => if p ≤ x ∧ x < c₀.position then x + 1 else x) hf1col
                    (fun cc hcc => by
                      simp only [hcc, eq_self_iff_true, true_and]
                      split_ifs <;> rfl)]
                have hmc : (movedCard c₀ t d c₀.columnId p tag).columnId = c₀.columnId :=
                  rfl
                rw [if_pos hmc, List.singleton_append]
                show dense ((colPositions s c₀.columnId).map _ ++
                  (movedCard c₀ t d c₀.columnId p tag).position ::
                    (colPositions u c₀.columnId).map _)
                have hmp : (movedCard c₀ t d c₀.columnId p tag).position = p := rfl
                rw [hmp]
                exact dense_shift_reorder_up hdco hp1 hp2' hlt
              · rw [colPositions_map_id _ _ _ hf1col
                    (fun cc hcc => by
                      rw [if_neg (fun hh => hc (by rw [← hcc, hh.1]))]),
                  colPositions_map_id _ _ _ hf1col
                    (fun cc hcc => by
                      rw [if_neg (fun hh => hc (by rw [← hcc, hh.1]))]),
                  if_neg (fun hmc => hc (by
                    rw [← hmc]
                    rfl)), List.nil_append]
                have h0 := hdense c
                rw [hst, colPositions_middle,
                  if_neg (fun h => hc h.symm), List.nil_append] at h0
                exact h0
          · have hgt : c₀.position < p := by omega
            rw [updateCard_eval_same_down hfind hfrom t d tag uid hgt]
            have hf1id : ∀ c : Card, ((if c.columnId = c₀.columnId ∧
                c₀.position < c.position ∧ c.position ≤ p
                then { c with position := c.position - 1 } else c) : Card).id = c.id := by
              intro c
              by_cases h : c.columnId = c₀.columnId ∧
                c₀.position < c.position ∧ c.position ≤ p <;> simp [h]
            have hf1col : ∀ c : Card, ((if c.columnId = c₀.columnId ∧
                c₀.position < c.position ∧ c.position ≤ p
                then { c with position := c.position - 1 } else c) : Card).columnId =
                c.columnId := by
              intro c
              by_cases h : c.columnId = c₀.columnId ∧
                c₀.position < c.position ∧ c.position ≤ p <;> simp [h]
            have hf1c₀ : ((if c₀.columnId = c₀.columnId ∧
                c₀.position < c₀.position ∧ c₀.position ≤ p
                then { c₀ with position := c₀.position - 1 } else c₀) : Card) = c₀ := by
              rw [if_neg (fun h => Nat.lt_irrefl _ h.2.1)]
            have hdecomp : (db.cards.map (fun c =>
                if c.columnId = c₀.columnId ∧ c₀.position < c.position ∧ c.position ≤ p
                then { c with position := c.position - 1 } else c)).map (fun c =>
                  if c.id = c₀.id then movedCard c₀ t d c₀.columnId p tag else c) =
                (s.map (fun c =>
                  if c.columnId = c₀.columnId ∧ c₀.position < c.position ∧ c.position ≤ p
                  then { c with position := c.position - 1 } else c)) ++
                movedCard c₀ t d c₀.columnId p tag ::
                (u.map (fun c =>
                  if c.columnId = c₀.columnId ∧ c₀.position < c.position ∧ c.position ≤ p
                  then { c with position := c.position - 1 } else c)) := by
              rw [hst, List.map_append, List.map_cons, hf1c₀,
                map_upd_decomp (mem_map_ne_id hf1id hs') (mem_map_ne_id hf1id hu') rfl]
            refine ⟨?_, hndk, ?_, hdensek⟩
            · show (((db.cards.map _).map _).map Card.id).Nodup
              rw [hdecomp, List.map_append, List.map_cons,
                mapIds_eq _ _ hf1id, mapIds_eq _ _ hf1id]
              have h0 := hndc
              rw [hst, List.map_append, List.map_cons] at h0
              exact h0
            · intro c
              show dense (colPositions ((db.cards.map _).map _) c)
              rw [hdecomp, colPositions_middle]
              by_cases hc : c = c₀.columnId
              · subst hc
                rw [colPositions_map _ _ _
                    (fun x => if c₀.position < x ∧ x ≤ p then x - 1 else x) hf1col
                    (fun cc hcc => by
                      simp only [hcc, eq_self_iff_true, true_and]
                      split_ifs <;> rfl),
                  colPositions_map _ _ _
                    (fun x => if c₀.position < x ∧ x ≤ p then x - 1 else x) hf1col
                    (fun cc hcc => by
                      simp only [hcc, eq_self_iff_true, true_and]
                      split_ifs <;> rfl)]
                have hmc : (movedCard c₀ t d c₀.columnId p tag).columnId = c₀.columnId :=
                  rfl
                rw [if_pos hmc, List.singleton_append]
                show dense ((colPositions s c₀.columnId).map _ ++
                  (movedCard c₀ t d c₀.columnId p tag).position ::
                    (colPositions u c₀.columnId).map _)
                have hmp : (movedCard c₀ t d c₀.columnId p tag).position = p := rfl
                rw [hmp]
                exact dense_shift_reorder_down hdco hp2' hgt
              · rw [colPositions_map_id _ _ _ hf1col
                    (fun cc hcc => by
                      rw [if_neg (fun hh => hc (by rw [← hcc, hh.1]))]),
                  colPositions_map_id _ _ _ hf1col
                    (fun cc hcc => by
                      rw [if_neg (fun hh => hc (by rw [← hcc, hh.1]))]),
                  if_neg (fun hmc => hc (by
                    rw [← hmc]
                    rfl)), List.nil_append]
                have h0 := hdense c
                rw [hst, colPositions_middle,
                  if_neg (fun h => hc h.symm), List.nil_append] at h0
                exact h0
      · rw [if_neg hsame] at hv
        rw [Bool.and_eq_true, decide_eq_true_eq, decide_eq_true_eq] at hv
        obtain ⟨hp1, hp2⟩ := hv
        cases hnew : Column.findByPk db col with
        | none =>
          rw [updateCard_eval_cross_notfound hfind hfrom t d p tag uid hsame hnew]
          exact ⟨hndc, hndk, hdense, hdensek⟩
        | some nc =>
          rw [updateCard_eval_cross hfind hfrom t d p tag uid hsame hnew]
          have hfdid : ∀ c : Card, ((if c.columnId = col ∧ p ≤ c.position
              then { c with position := c.position + 1 } else c) : Card).id = c.id := by
            intro c
            by_cases h : c.columnId = col ∧ p ≤ c.position <;> simp [h]
          have hfdcol : ∀ c : Card, ((if c.columnId = col ∧ p ≤ c.position
              then { c with position := c.position + 1 } else c) : Card).columnId =
              c.columnId := by
            intro c
            by_cases h : c.columnId = col ∧ p ≤ c.position <;> simp [h]
          have hfsid : ∀ c : Card, ((if c.columnId = c₀.columnId ∧
              c₀.position < c.position
              then { c with position := c.position - 1 } else c) : Card).id = c.id := by
            intro c
            by_cases h : c.columnId = c₀.columnId ∧ c₀.position < c.position <;> simp [h]
          have hfscol : ∀ c : Card, ((if c.columnId = c₀.columnId ∧
              c₀.position < c.position
              then { c with position := c.position - 1 } else c) : Card).columnId =
              c.columnId := by
            intro c
            by_cases h : c.columnId = c₀.columnId ∧ c₀.position < c.position <;> simp [h]
          have hfdc₀ : ((if c₀.columnId = col ∧ p ≤ c₀.position
              then { c₀ with position := c₀.position + 1 } else c₀) : Card) = c₀ := by
            rw [if_neg (fun h => hsame h.1.symm)]
          have hfsc₀ : ((if c₀.columnId = c₀.columnId ∧ c₀.position < c₀.position
              then { c₀ with position := c₀.position - 1 } else c₀) : Card) = c₀ := by
            rw [if_neg (fun h => Nat.lt_irrefl _ h.2)]
          have hdecomp : ((db.cards.map (fun c =>
              if c.columnId = col ∧ p ≤ c.position
              then { c with position := c.position + 1 } else c)).map (fun c =>
                if c.columnId = c₀.columnId ∧ c₀.position < c.position
                then { c with position := c.position - 1 } else c)).map (fun c =>
                  if c.id = c₀.id then movedCard c₀ t d col p tag else c) =
              ((s.map (fun c => if c.columnId = col ∧ p ≤ c.position
                then { c with position := c.position + 1 } else c)).map (fun c =>
                  if c.columnId = c₀.columnId ∧ c₀.position < c.position
                  then { c with position := c.position - 1 } else c)) ++
              movedCard c₀ t d col p tag ::
              ((u.map (fun c => if c.columnId = col ∧ p ≤ c.position
                then { c with position := c.position + 1 } else c)).map (fun c =>
                  if c.columnId = c₀.columnId ∧ c₀.position < c.position
                  then { c with position := c.position - 1 } else c)) := by
            rw [hst, List.map_append, List.map_cons, hfdc₀,
              List.map_append, List.map_cons, hfsc₀,
              map_upd_decomp
                (mem_map_ne_id hfsid (mem_map_ne_id hfdid hs'))
                (mem_map_ne_id hfsid (mem_map_ne_id hfdid hu')) rfl]
          refine ⟨?_, hndk, ?_, hdensek⟩
          · show ((((db.cards.map _).map _).map _).map Card.id).Nodup
            rw [hdecomp, List.map_append, List.map_cons,
              mapIds_eq _ _ hfsid, mapIds_eq _ _ hfdid,
              mapIds_eq _ _ hfsid, mapIds_eq _ _ hfdid]
            have h0 := hndc
            rw [hst, List.map_append, List.map_cons] at h0
            exact h0
          · intro c
            show dense (colPositions (((db.cards.map _).map _).map _) c)
            rw [hdecomp, colPositions_middle]
            by_cases hcd : c = col
            · subst hcd
              rw [colPositions_map_id _ _ _ hfscol
                    (fun cc hcc => by
                      rw [if_neg (fun hh => hsame (by rw [← hh.1, hcc]))]),
                colPositions_map _ _ _ (shiftUpFrom p) hfdcol
                    (fun cc hcc => by
                      unfold shiftUpFrom
                      by_cases h : p ≤ cc.position
                      · rw [if_pos ⟨hcc, h⟩, if_pos h]
                      · rw [if_neg (fun hh => h hh.2), if_neg h]),
                colPositions_map_id _ _ _ hfscol
                    (fun cc hcc => by
                      rw [if_neg (fun hh => hsame (by rw [← hh.1, hcc]))]),
                colPositions_map _ _ _ (shiftUpFrom p) hfdcol
                    (fun cc hcc => by
                      unfold shiftUpFrom
                      by_cases h : p ≤ cc.position
                      · rw [if_pos ⟨hcc, h⟩, if_pos h]
                      · rw [if_neg (fun hh => h hh.2), if_neg h])]
              have hmc : (movedCard c₀ t d c p tag).columnId = c := rfl
              rw [if_pos hmc, List.singleton_append]
              show dense ((colPositions s c).map (shiftUpFrom p) ++
                (movedCard c₀ t d c p tag).position ::
                  (colPositions u c).map (shiftUpFrom p))
              have hmp : (movedCard c₀ t d c p tag).position = p := rfl
              rw [hmp]
              have hdd : dense (colPositions s c ++ colPositions u c) := by
                have h0 := hdense c
                rw [hst, colPositions_middle,
                  if_neg (fun h => hsame h.symm), List.nil_append] at h0
                exact h0
              have hp2' : p ≤ (colPositions s c ++ colPositions u c).length + 1 := by
                have hlen : (colPositions db.cards c).length =
                    (colPositions s c ++ colPositions u c).length := by
                  rw [hst, colPositions_middle,
                    if_neg (fun h => hsame h.symm), List.nil_append]
                omega
              exact dense_shift_insert hdd hp1 hp2'
            · by_cases hcs : c = c₀.columnId
              · subst hcs
                rw [colPositions_map _ _ _ (shiftDownPast c₀.position) hfscol
                      (fun cc hcc => by
                        unfold shiftDownPast
                        by_cases h : c₀.position < cc.position
                        · rw [if_pos ⟨hcc, h⟩, if_pos h]
                        · rw [if_neg (fun hh => h hh.2), if_neg h]),
                  colPositions_map_id _ _ _ hfdcol
                      (fun cc hcc => by
                        rw [if_neg (fun hh => hcd (by rw [← hcc, hh.1]))]),
                  colPositions_map _ _ _ (shiftDownPast c₀.position) hfscol
                      (fun cc hcc => by
                        unfold shiftDownPast
                        by_cases h : c₀.position < cc.position
                        · rw [if_pos ⟨hcc, h⟩, if_pos h]
                        · rw [if_neg (fun hh => h hh.2), if_neg h]),
                  colPositions_map_id _ _ _ hfdcol
                      (fun cc hcc => by
                        rw [if_neg (fun hh => hcd (by rw [← hcc, hh.1]))]),
                  if_neg (fun hmc => hsame (by
                    rw [← hmc]
                    rfl)), List.nil_append]
                have hdd : dense (colPositions s c₀.columnId ++
                    c₀.position :: colPositions u c₀.columnId) := by
                  have h0 := hdense c₀.columnId
                  rw [hst, colPositions_middle, if_pos rfl,
                    List.singleton_append] at h0
                  exact h0
                exact dense_shift_remove hdd
              · rw [colPositions_map_id _ _ _ hfscol
                      (fun cc hcc => by
                        rw [if_neg (fun hh => hcs (by rw [← hcc, hh.1]))]),
                  colPositions_map_id _ _ _ hfdcol
                      (fun cc hcc => by
                        rw [if_neg (fun hh => hcd (by rw [← hcc, hh.1]))]),
                  colPositions_map_id _ _ _ hfscol
                      (fun cc hcc => by
                        rw [if_neg (fun hh => hcs (by rw [← hcc, hh.1]))]),
                  colPositions_map_id _ _ _ hfdcol
                      (fun cc hcc => by
                        rw [if_neg (fun hh => hcd (by rw [← hcc, hh.1]))]),
                  if_neg (fun hmc => hcd (by
                    rw [← hmc]
                    rfl)), List.nil_append]
                have h0 := hdense c
                rw [hst, colPositions_middle,
                  if_neg (fun h => hcs h.symm), List.nil_append] at h0
                exact h0

theorem boardInv_applyOp {db : DB} (hinv : boardInv db) {op : BoardOp}
    (hv : opValidB db op = true) : boardInv (applyOp db op) := by
  cases op with
  | createCard nextId t d col tag uid =>
    simp only [opValidB, decide_eq_true_eq] at hv
    exact boardInv_createCard hinv hv t d col tag uid
  | moveCard id t d col p tag uid =>
    exact boardInv_moveCard hinv id t d tag uid hv
  | deleteCard id uid => exact boardInv_deleteCard hinv id uid
  | createColumn nextId n uid =>
    simp only [opValidB, decide_eq_true_eq] at hv
    exact boardInv_createColumn hinv hv n uid
  | updateColumn id n pos uid =>
    refine boardInv_updateColumn hinv id n uid (fun p hp => ?_)
    rw [hp] at hv
    simp only [opValidB, Bool.or_eq_true, decide_eq_true_eq] at hv
    exact hv
  | deleteColumn id uid => exact boardInv_deleteColumn hinv id uid

theorem boardInv_applyOps {db : DB} (hinv : boardInv db) {ops : List BoardOp}
    (hv : validSeqB db ops = true) : boardInv (applyOps db ops) := by
  induction ops generalizing db with
  | nil => exact hinv
  | cons op ops ih =>
    rw [validSeqB, Bool.and_eq_true] at hv
    exact ih (boardInv_applyOp hinv hv.1) hv.2

/-!
### The per-user column scope of the original claim C1
-/

/-- The columns visible to one user: that user's own columns plus the
shared/system (null-owner) columns — the scope the claim quantifies over. -/
def userScopeColumns (db : DB) (uid : Nat) : List Nat :=
  (db.columns.filter (fun c => c.userId = none ∨ c.userId = some uid)).map
    Column.position

theorem le_listMax {l : List Nat} {x : Nat} (h : x ∈ l) : x ≤ listMax l := by
  induction l with
  | nil => cases h
  | cons a l ih =>
    have hxs : listMax (a :: l) = max a (listMax l) := by
      show (a :: l).foldr max 0 = max a (l.foldr max 0)
      rfl
    rw [hxs]
    rcases List.mem_cons.mp h with h | h
    · exact h ▸ Nat.le_max_left _ _
    · exact Nat.le_trans (ih h) (Nat.le_max_right _ _)

theorem userScope_eq_of_not_mem {db : DB} {uid : Nat}
    (h : ∀ c ∈ db.columns, c.userId ≠ some uid) :
    userScopeColumns db uid =
      (db.columns.filter (fun c => c.userId = none)).map Column.position := by
  unfold userScopeColumns
  congr 1
  apply List.filter_congr
  intro c hc
  simp [h c hc]

theorem userScopeAll_iff (db : DB) :
    (∀ uid, dense (userScopeColumns db uid)) ↔
      ((∀ uid ∈ db.columns.filterMap Column.userId,
        dense (userScopeColumns db uid)) ∧
        dense ((db.columns.filter (fun c => c.userId = none)).map
          Column.position)) := by
  constructor
  · intro h
    refine ⟨fun uid _ => h uid, ?_⟩
    have hfresh : ∀ c ∈ db.columns,
        c.userId ≠ some (listMax (db.columns.filterMap Column.userId) + 1) := by
      intro c hc heq
      have hmem : listMax (db.columns.filterMap Column.userId) + 1 ∈
          db.columns.filterMap Column.userId :=
        List.mem_filterMap.mpr ⟨c, hc, heq⟩
      have := le_listMax hmem
      omega
    rw [← userScope_eq_of_not_mem hfresh]
    exact h _
  · intro h uid
    by_cases hm : uid ∈ db.columns.filterMap Column.userId
    · exact h.1 uid hm
    · rw [userScope_eq_of_not_mem (fun c hc heq => hm
        (List.mem_filterMap.mpr ⟨c, hc, heq⟩))]
      exact h.2

instance (db : DB) : Decidable (∀ uid, dense (userScopeColumns db uid)) :=
  decidable_of_iff _ (userScopeAll_iff db).symm

/-!
### Claim C1
-/

/-- A two-column board: one shared column and one owned by user 2.  Every
user-plus-system scope is dense here. -/
def twoOwnerBoard : DB :=
  { columns := [{ id := 1, name := "Todo", position := 1, userId := none },
                { id := 2, name := "Mine", position := 2, userId := some 2 }],
    cards := [],
    logs := [] }

/-- One shared column holding two cards of user 1. -/
def twoCardBoard : DB :=
  { columns := [{ id := 1, name := "Todo", position := 1, userId := none }],
    cards := [{ id := 1, title := "a", description := none, columnId := 1,
                position := 1, tagId := none, userId := some 1 },
              { id := 2, title := "b", description := none, columnId := 1,
                position := 2, tagId := none, userId := some 1 }],
    logs := [] }

/-- Claim C1 as stated is false on the code, at two explicit inputs.
First: on `twoOwnerBoard` every user-plus-system column scope is dense, yet
after user 1 creates one column (`Column.max('position')` being unscoped,
the new column gets position 3), user 1's scope has positions `{1, 3}` — a
gap after a single successful create.  Second: on `twoCardBoard` (which
satisfies the full invariant) the successful move of card 2 to position 100
— the code accepts any destination position — leaves column 1 with
positions `{1, 100}`, not `{1, 2}`. -/
theorem c1_counterexample :
    (∀ uid, dense (userScopeColumns twoOwnerBoard uid)) ∧
    boardInv twoOwnerBoard ∧
    ¬ dense (userScopeColumns (createColumn twoOwnerBoard 3 "New" 1).1 1) ∧
    boardInv twoCardBoard ∧
    ((updateCard noFault twoCardBoard 2 "b" none 1 100 none 1).toOption.map
      (fun r => colPositions r.1.cards 1) = some [1, 100]) ∧
    ¬ dense [1, 100] := by
  exact ⟨by decide, by decide, by decide, by decide, by decide, by decide⟩

/-- Claim C1 (amended): starting from a state with unique primary keys,
dense card positions in every column, and dense positions over the set of
ALL columns (all users together — not per user-plus-system scope, which the
unscoped `Column.max` breaks), any sequence of successful create, move, and
delete operations preserves exactly that invariant, provided each create
uses a fresh id and each move's destination position is in range
(`[1, N]` for a same-column card move, `[1, M + 1]` for a cross-column
card move, `[1, number of columns]` for a column reorder; out-of-range
moves are accepted by the code and break density, as the counterexample
shows). -/
theorem c1_dense_positions_amended (db : DB) (ops : List BoardOp)
    (hinv : boardInv db) (hv : validSeqB db ops = true) :
    boardInv (applyOps db ops) :=
  boardInv_applyOps hinv hv

/-- A one-column board to drive the claim C1 witness sequence. -/
def witnessBoard : DB :=
  { columns := [{ id := 1, name := "Backlog", position := 1, userId := none }],
    cards := [],
    logs := [] }

/-- A witness sequence exercising every operation kind of claim C1. -/
def witnessOps : List BoardOp :=
  [.createCard 1 "A" none 1 none 1,
   .createCard 2 "B" none 1 none 1,
   .createCard 3 "C" none 1 none 1,
   .moveCard 3 "C" none 1 1 none 1,
   .createColumn 2 "Done" 1,
   .moveCard 1 "A" none 2 1 none 1,
   .deleteCard 2 1,
   .updateColumn 2 none (some 1) 1,
   .deleteColumn 1 1]

/-- Witness for claim C1 (amended): a concrete valid sequence from a
concrete invariant-satisfying board, with the invariant evaluated on the
result. -/
theorem c1_witness :
    boardInv witnessBoard ∧ validSeqB witnessBoard witnessOps = true ∧
    boardInv (applyOps witnessBoard witnessOps) :=
  ⟨by decide, by decide,
    c1_dense_positions_amended witnessBoard witnessOps (by decide) (by decide)⟩

/-!
### Claim C2
-/

/-- The per-card position delta asserted by claim C2, written from the
claim's own words (`srcCol`/`q` the moved card's pre-call column and
position, `dstCol`/`p` the destination): same container and `p < q` shifts
`[p, q)` up by one, same container and `p > q` shifts `(q, p]` down by one,
a different container shifts destination positions `≥ p` up and source
positions `> q` down, and nothing else moves. -/
def claimShiftPos (srcCol q dstCol p : Nat) (c : Card) : Nat :=
  if dstCol = srcCol then
    if p < q then
      (if c.columnId = srcCol ∧ p ≤ c.position ∧ c.position < q
       then c.position + 1 else c.position)
    else if q < p then
      (if c.columnId = srcCol ∧ q < c.position ∧ c.position ≤ p
       then c.position - 1 else c.position)
    else c.position
  else
    if c.columnId = dstCol ∧ p ≤ c.position then c.position + 1
    else if c.columnId = srcCol ∧ q < c.position then c.position - 1
    else c.position

/-- Claim C2: a successful card update moves exactly the claimed position
ranges by exactly the claimed deltas, writes the moved card with the
destination column and position, and changes no other card. -/
theorem c2_move_shift_semantics {db : DB} {id : Nat} {c₀ : Card}
    (hfind : Card.findByPk db id = some c₀)
    {t : String} {d : Option String} {col p : Nat} {tag : Option Nat} {uid : Nat}
    {db' : DB} {c' : Card}
    (hok : updateCard noFault db id t d col p tag uid = .ok (db', c')) :
    db'.cards = db.cards.map (fun c =>
      if c.id = id then movedCard c₀ t d col p tag
      else { c with position := claimShiftPos c₀.columnId c₀.position col p c }) ∧
    c' = movedCard c₀ t d col p tag := by
  have hid : c₀.id = id := by
    simpa using List.find?_some hfind
  cases hfrom : Column.findByPk db c₀.columnId with
  | none =>
    rw [updateCard_eval_nocol hfind hfrom] at hok
    cases hok
  | some fc =>
    by_cases hsame : col = c₀.columnId
    · subst hsame
      by_cases hpe : p = c₀.position
      · subst hpe
        rw [updateCard_eval_same_same hfind hfrom t d tag uid] at hok
        injection hok with hok
        injection hok with hdb hc
        subst hdb
        subst hc
        refine ⟨?_, rfl⟩
        show db.cards.map _ = db.cards.map _
        refine List.map_congr_left (fun c _ => ?_)
        by_cases hcid : c.id = id
        · rw [if_pos (by rw [hcid, hid]), if_pos hcid]
        · rw [if_neg (by rw [hid]; exact hcid), if_neg hcid]
          show c = ({ c with position := claimShiftPos _ _ _ _ c } : Card)
          rw [show claimShiftPos c₀.columnId c₀.position c₀.columnId c₀.position c =
            c.position from by
              unfold claimShiftPos
              rw [if_pos rfl, if_neg (Nat.lt_irrefl _), if_neg (Nat.lt_irrefl _)]]
      · by_cases hlt : p < c₀.position
        · rw [updateCard_eval_same_up hfind hfrom t d tag uid hlt] at hok
          injection hok with hok
          injection hok with hdb hc
          subst hdb
          subst hc
          refine ⟨?_, rfl⟩
          show (db.cards.map _).map _ = db.cards.map _
          rw [List.map_map]
          refine List.map_congr_left (fun c _ => ?_)
          show (if (if c.columnId = c₀.columnId ∧ p ≤ c.position ∧
              c.position < c₀.position
              then { c with position := c.position + 1 } else c).id = c₀.id
            then movedCard c₀ t d c₀.columnId p tag
            else (if c.columnId = c₀.columnId ∧ p ≤ c.position ∧
              c.position < c₀.position
              then { c with position := c.position + 1 } else c)) =
            (if c.id = id then movedCard c₀ t d c₀.columnId p tag
             else { c with position :=
               claimShiftPos c₀.columnId c₀.position c₀.columnId p c })
          have hkey : ((if c.columnId = c₀.columnId ∧ p ≤ c.position ∧
              c.position < c₀.position
              then { c with position := c.position + 1 } else c) : Card).id = c.id := by
            by_cases h : c.columnId = c₀.columnId ∧ p ≤ c.position ∧
              c.position < c₀.position <;> simp [h]
          unfold claimShiftPos
          rw [if_pos rfl, if_pos hlt]
          by_cases hcid : c.id = id
          · rw [if_pos (by rw [hkey, hcid, hid]), if_pos hcid]
          · rw [if_neg (by rw [hkey, hid]; exact hcid), if_neg hcid]
            by_cases hcond : c.columnId = c₀.columnId ∧ p ≤ c.position ∧
              c.position < c₀.position
            · rw [if_pos hcond, if_pos hcond]
            · rw [if_neg hcond, if_neg hcond]
        · have hgt : c₀.position < p := by omega
          rw [updateCard_eval_same_down hfind hfrom t d tag uid hgt] at hok
          injection hok with hok
          injection hok with hdb hc
          subst hdb
          subst hc
          refine ⟨?_, rfl⟩
          show (db.cards.map _).map _ = db.cards.map _
          rw [List.map_map]
          refine List.map_congr_left (fun c _ => ?_)
          show (if (if c.columnId = c₀.columnId ∧ c₀.position < c.position ∧
              c.position ≤ p
              then { c with position := c.position - 1 } else c).id = c₀.id
            then movedCard c₀ t d c₀.columnId p tag
            else (if c.columnId = c₀.columnId ∧ c₀.position < c.position ∧
              c.position ≤ p
              then { c with position := c.position - 1 } else c)) =
            (if c.id = id then movedCard c₀ t d c₀.columnId p tag
             else { c with position :=
               claimShiftPos c₀.columnId c₀.position c₀.columnId p c })
          have hkey : ((if c.columnId = c₀.columnId ∧ c₀.position < c.position ∧
              c.position ≤ p
              then { c with position := c.position - 1 } else c) : Card).id = c.id := by
            by_cases h : c.columnId = c₀.columnId ∧ c₀.position < c.position ∧
              c.position ≤ p <;> simp [h]
          unfold claimShiftPos
          rw [if_pos rfl, if_neg (Nat.lt_asymm hgt), if_pos hgt]
          by_cases hcid : c.id = id
          · rw [if_pos (by rw [hkey, hcid, hid]), if_pos hcid]
          · rw [if_neg (by rw [hkey, hid]; exact hcid), if_neg hcid]
            by_cases hcond : c.columnId = c₀.columnId ∧ c₀.position < c.position ∧
              c.position ≤ p
            · rw [if_pos hcond, if_pos hcond]
            · rw [if_neg hcond, if_neg hcond]
    · cases hnew : Column.findByPk db col with
      | none =>
        rw [updateCard_eval_cross_notfound hfind hfrom t d p tag uid hsame hnew]
          at hok
        cases hok
      | some nc =>
        rw [updateCard_eval_cross hfind hfrom t d p tag uid hsame hnew] at hok
        injection hok with hok
        injection hok with hdb hc
        subst hdb
        subst hc
        refine ⟨?_, rfl⟩
        show ((db.cards.map _).map _).map _ = db.cards.map _
        rw [List.map_map, List.map_map]
        refine List.map_congr_left (fun c _ => ?_)
        simp only [Function.comp]
        have hkey : ∀ cc : Card, ((if cc.columnId = c₀.columnId ∧
            c₀.position < cc.position
            then { cc with position := cc.position - 1 } else cc) : Card).id =
            cc.id := by
          intro cc
          by_cases h : cc.columnId = c₀.columnId ∧ c₀.position < cc.position <;>
            simp [h]
        have hkey2 : ∀ cc : Card, ((if cc.columnId = col ∧ p ≤ cc.position
            then { cc with position := cc.position + 1 } else cc) : Card).id =
            cc.id := by
          intro cc
          by_cases h : cc.columnId = col ∧ p ≤ cc.position <;> simp [h]
        unfold claimShiftPos
        rw [if_neg hsame]
        by_cases hcid : c.id = id
        · rw [if_pos (by rw [hkey, hkey2, hcid, hid]), if_pos hcid]
        · rw [if_neg (by rw [hkey, hkey2, hid]; exact hcid), if_neg hcid]
          have h3 : c.columnId = col → ¬ c.columnId = c₀.columnId :=
            fun h1 h => hsame (by rw [← h1, h])
          by_cases h1 : c.columnId = col
          · by_cases h2 : p ≤ c.position
            · rw [if_pos (⟨h1, h2⟩ : c.columnId = col ∧ p ≤ c.position),
                if_pos (⟨h1, h2⟩ : c.columnId = col ∧ p ≤ c.position),
                if_neg (show ¬(({ c with position := c.position + 1 } :
                  Card).columnId = c₀.columnId ∧ c₀.position <
                  ({ c with position := c.position + 1 } : Card).position) from
                  fun hh => h3 h1 hh.1)]
            · rw [if_neg (show ¬(c.columnId = col ∧ p ≤ c.position) from
                  fun hh => h2 hh.2),
                if_neg (show ¬(c.columnId = col ∧ p ≤ c.position) from
                  fun hh => h2 hh.2),
                if_neg (show ¬(c.columnId = c₀.columnId ∧
                  c₀.position < c.position) from fun hh => h3 h1 hh.1),
                if_neg (show ¬(c.columnId = c₀.columnId ∧
                  c₀.position < c.position) from fun hh => h3 h1 hh.1)]
          · rw [if_neg (show ¬(c.columnId = col ∧ p ≤ c.position) from
                fun hh => h1 hh.1),
              if_neg (show ¬(c.columnId = col ∧ p ≤ c.position) from
                fun hh => h1 hh.1)]
            by_cases h4 : c.columnId = c₀.columnId ∧ c₀.position < c.position
            · rw [if_pos h4, if_pos h4]
            · rw [if_neg h4, if_neg h4]

/-- Board for the claim C2 witness: "Backlog" holds X, "Done" holds D, E. -/
def crossBoard : DB :=
  { columns := [{ id := 1, name := "Backlog", position := 1, userId := none },
                { id := 2, name := "Done", position := 2, userId := none }],
    cards := [{ id := 1, title := "X", description := none, columnId := 1,
                position := 1, tagId := none, userId := some 1 },
              { id := 2, title := "D", description := none, columnId := 2,
                position := 1, tagId := none, userId := some 1 },
              { id := 3, title := "E", description := none, columnId := 2,
                position := 2, tagId := none, userId := some 1 }],
    logs := [] }

/-- The card X of `crossBoard` before the move. -/
def crossBoardCard0 : Card :=
  { id := 1, title := "X", description := none, columnId := 1, position := 1,
    tagId := none, userId := some 1 }

/-- The database committed by moving X to "Done" position 1. -/
def crossBoardAfter : DB :=
  { columns := [{ id := 1, name := "Backlog", position := 1, userId := none },
                { id := 2, name := "Done", position := 2, userId := none }],
    cards := [{ id := 1, title := "X", description := none, columnId := 2,
                position := 1, tagId := none, userId := some 1 },
              { id := 2, title := "D", description := none, columnId := 2,
                position := 2, tagId := none, userId := some 1 },
              { id := 3, title := "E", description := none, columnId := 2,
                position := 3, tagId := none, userId := some 1 }],
    logs := [{ cardId := some 1, cardTitle := "X", actionType := "updated",
               fromColumn := some "Backlog", toColumn := some "Done",
               fromPosition := some 1, toPosition := some 1, userId := some 1 }] }

/-- Witness for claim C2: the spec's cross-column scenario (X from
"Backlog" into "Done" at position 1, D and E shifting to 2 and 3). -/
theorem c2_witness :
    (Card.findByPk crossBoard 1 = some crossBoardCard0 ∧
      updateCard noFault crossBoard 1 "X" none 2 1 none 1 =
        .ok (crossBoardAfter, movedCard crossBoardCard0 "X" none 2 1 none)) ∧
    (crossBoardAfter.cards = crossBoard.cards.map (fun c =>
      if c.id = 1 then movedCard crossBoardCard0 "X" none 2 1 none
      else { c with position := claimShiftPos 1 1 2 1 c }) ∧
      movedCard crossBoardCard0 "X" none 2 1 none =
        movedCard crossBoardCard0 "X" none 2 1 none) :=
  ⟨⟨by rfl, by rfl⟩,
    c2_move_shift_semantics (by rfl) (by rfl)⟩

/-!
### Claim C3
-/

/-- The spec scenario of claim C3: "Backlog" holds A, B, C at 1, 2, 3. -/
def backlogBoard : DB :=
  { columns := [{ id := 1, name := "Backlog", position := 1, userId := none }],
    cards := [{ id := 1, title := "A", description := none, columnId := 1,
                position := 1, tagId := none, userId := some 1 },
              { id := 2, title := "B", description := none, columnId := 1,
                position := 2, tagId := none, userId := some 1 },
              { id := 3, title := "C", description := none, columnId := 1,
                position := 3, tagId := none, userId := some 1 }],
    logs := [] }

/-- Claim C3 names a code bug: in the spec scenario (A=1, B=2, C=3, move C
to position 1) the positions do become A=2, B=3, C=1 and the single log row
carries fromPosition=3 and toPosition=1, but its actionType is
`"updated"`, not the claimed `"moved_up"`: the route computes the action
type after `currentCard.update(...)` has already mutated the instance, so
the comparisons always see the new values and the `moved_up`, `moved_down`
and `moved_column` branches are dead code. -/
theorem c3_actionType_always_updated :
    ((updateCard noFault backlogBoard 3 "C" none 1 1 none 1).toOption.map
      (fun r => (r.1.logs.map (fun e =>
        (e.actionType, e.fromPosition, e.toPosition)),
        r.1.cards.map (fun c => (c.id, c.position))))) =
      some ([("updated", some 3, some 1)], [(1, 2), (2, 3), (3, 1)]) ∧
    "updated" ≠ "moved_up" :=
  ⟨by rfl, by decide⟩

/-!
### Claim C7
-/

/-- Claim C7: moving a card onto its own current column and position leaves
every column's position list unchanged (the only write re-asserts the
card's own row with the same column and position) and appends exactly one
log row, whose actionType is "updated". -/
theorem c7_noop_move {db : DB} {id : Nat} {c₀ : Card} {fc : Column}
    (hnd : (db.cards.map Card.id).Nodup)
    (hfind : Card.findByPk db id = some c₀)
    (hfrom : Column.findByPk db c₀.columnId = some fc)
    (t : String) (d : Option String) (tag : Option Nat) (uid : Nat)
    {db' : DB} {c' : Card}
    (hok : updateCard noFault db id t d c₀.columnId c₀.position tag uid =
      .ok (db', c')) :
    (∀ col, colPositions db'.cards col = colPositions db.cards col) ∧
    db'.logs = db.logs ++
      [moveLog id t "updated" fc.name fc.name c₀.position c₀.position uid] := by
  rw [updateCard_eval_same_same hfind hfrom t d tag uid] at hok
  injection hok with hok
  injection hok with hdb _
  subst hdb
  refine ⟨?_, rfl⟩
  intro col
  obtain ⟨hid, s, u, hst, hs, hu⟩ := findByPk_decomp hnd hfind
  have hs' : ∀ c ∈ s, c.id ≠ c₀.id := fun c hc => by rw [hid]; exact hs c hc
  have hu' : ∀ c ∈ u, c.id ≠ c₀.id := fun c hc => by rw [hid]; exact hu c hc
  show colPositions (db.cards.map _) col = colPositions db.cards col
  rw [hst, map_upd_decomp hs' hu' rfl, colPositions_middle, colPositions_middle]
  simp [movedCard]

/-- The card C of `backlogBoard`. -/
def backlogCardC : Card :=
  { id := 3, title := "C", description := none, columnId := 1, position := 3,
    tagId := none, userId := some 1 }

/-- Witness for claim C7: moving C of `backlogBoard` onto its own position. -/
theorem c7_witness :
    ((backlogBoard.cards.map Card.id).Nodup ∧
      Card.findByPk backlogBoard 3 = some backlogCardC ∧
      Column.findByPk backlogBoard backlogCardC.columnId =
        some { id := 1, name := "Backlog", position := 1, userId := none } ∧
      updateCard noFault backlogBoard 3 "C" none 1 3 none 1 =
        .ok ({ backlogBoard with
               logs := [moveLog 3 "C" "updated" "Backlog" "Backlog" 3 3 1] },
             movedCard backlogCardC "C" none 1 3 none)) ∧
    ((∀ col, colPositions ({ backlogBoard with
        logs := [moveLog 3 "C" "updated" "Backlog" "Backlog" 3 3 1] } : DB).cards
          col = colPositions backlogBoard.cards col) ∧
      ({ backlogBoard with
         logs := [moveLog 3 "C" "updated" "Backlog" "Backlog" 3 3 1] } : DB).logs =
        backlogBoard.logs ++ [moveLog 3 "C" "updated" "Backlog" "Backlog" 3 3 1]) :=
  ⟨⟨by decide, by rfl, by rfl, by rfl⟩,
    @c7_noop_move backlogBoard 3 backlogCardC ⟨1, "Backlog", 1, none⟩
      (by decide) (by rfl) (by rfl) "C" none none 1
      { backlogBoard with
        logs := [moveLog 3 "C" "updated" "Backlog" "Backlog" 3 3 1] }
      (movedCard backlogCardC "C" none 1 3 none) (by rfl)⟩

/-!
### Claim C6
-/

/-- Claim C6 fails on the code: with two cards at positions 1 and 2 in
column 1 (so valid destinations are 1..3), moving card 2 to position 100
succeeds — no InvalidPosition error, no Ledger protection — and the
committed state holds positions `{1, 100}`. -/
theorem c6_counterexample :
    (updateCard noFault twoCardBoard 2 "b" none 1 100 none 1).toOption.map
      (fun r => (r.2.position, r.1.cards.map (fun c => (c.id, c.position)))) =
      some (100, [(1, 1), (2, 100)]) := by
  rfl

/-- Claim C6 (amended): updateItem performs no destination-position
validation at all: for ANY destination position p — in particular any
value outside [1, N+1] — the same-column update succeeds whenever the card
and its column row exist, and the card is written with position p as-is,
neither clamped nor rejected. -/
theorem c6_no_position_validation {db : DB} {id : Nat} {c₀ : Card} {fc : Column}
    (hfind : Card.findByPk db id = some c₀)
    (hfrom : Column.findByPk db c₀.columnId = some fc)
    (t : String) (d : Option String) (p : Nat) (tag : Option Nat) (uid : Nat) :
    ∃ db', updateCard noFault db id t d c₀.columnId p tag uid =
      .ok (db', movedCard c₀ t d c₀.columnId p tag) ∧
      (movedCard c₀ t d c₀.columnId p tag).position = p := by
  by_cases hpe : p = c₀.position
  · subst hpe
    exact ⟨_, updateCard_eval_same_same hfind hfrom t d tag uid, rfl⟩
  · by_cases hlt : p < c₀.position
    · exact ⟨_, updateCard_eval_same_up hfind hfrom t d tag uid hlt, rfl⟩
    · have hgt : c₀.position < p := by omega
      exact ⟨_, updateCard_eval_same_down hfind hfrom t d tag uid hgt, rfl⟩

/-- The second card of `twoCardBoard`. -/
def twoCardBoardCard2 : Card :=
  { id := 2, title := "b", description := none, columnId := 1, position := 2,
    tagId := none, userId := some 1 }

/-- Witness for claim C6 (amended): destination position 100 in a 2-card
column is accepted and written as-is. -/
theorem c6_witness :
    (Card.findByPk twoCardBoard 2 = some twoCardBoardCard2 ∧
      Column.findByPk twoCardBoard twoCardBoardCard2.columnId =
        some { id := 1, name := "Todo", position := 1, userId := none }) ∧
    (∃ db', updateCard noFault twoCardBoard 2 "b" none
        twoCardBoardCard2.columnId 100 none 1 =
      .ok (db', movedCard twoCardBoardCard2 "b" none
        twoCardBoardCard2.columnId 100 none) ∧
      (movedCard twoCardBoardCard2 "b" none
        twoCardBoardCard2.columnId 100 none).position = 100) :=
  ⟨⟨by rfl, by rfl⟩,
    c6_no_position_validation (by rfl) (by rfl) "b" none 100 none 1⟩

/-!
### Claim C5
-/

/-- Claim C5: for every mutating card operation and every fault oracle
(a storage fault at any call after the transaction opened, or a missing
entity), an error outcome commits nothing: the committed database —
cards, columns, and logs — is exactly the pre-call database. -/
theorem c5_rollback_atomicity (φ : Nat → Bool) (db : DB) :
    (∀ nextId t d col tag uid e,
      createCard φ db nextId t d col tag uid = .error e →
      commitP db (createCard φ db nextId t d col tag uid) = db) ∧
    (∀ id t d col p tag uid e,
      updateCard φ db id t d col p tag uid = .error e →
      commitP db (updateCard φ db id t d col p tag uid) = db) ∧
    (∀ id uid e, deleteCard φ db id uid = .error e →
      commit db (deleteCard φ db id uid) = db) := by
  refine ⟨fun _ _ _ _ _ _ e h => ?_, fun _ _ _ _ _ _ _ e h => ?_,
    fun _ _ e h => ?_⟩ <;> (rw [h]; rfl)

/-- Witness for claim C5: a storage fault injected at the entity-write
call (index 4) of the card update makes the operation fail, and the
committed state is the untouched pre-call board. -/
theorem c5_witness :
    updateCard (fun i => i == 4) twoCardBoard 1 "a" none 1 2 none 1 =
      .error "Server error" ∧
    commitP twoCardBoard
      (updateCard (fun i => i == 4) twoCardBoard 1 "a" none 1 2 none 1) =
      twoCardBoard :=
  ⟨by rfl,
    (c5_rollback_atomicity (fun i => i == 4) twoCardBoard).2.1 1 "a" none 1 2
      none 1 "Server error" (by rfl)⟩

/-!
### Claim C4
-/

/-- Claim C4 fails on the code: creating a column appends no LogEntry at
all, and deleting a column that cascades the destruction of two cards
appends no LogEntry either (the bulk `Card.destroy` is unlogged). -/
theorem c4_counterexample :
    (createColumn twoOwnerBoard 3 "New" 1).1.logs = [] ∧
    twoCardBoard.cards.length = 2 ∧
    (deleteColumn twoCardBoard 1 1).toOption.map
      (fun r => (r.cards.length, r.logs.length)) = some (0, 0) :=
  ⟨rfl, rfl, rfl⟩

/-- Claim C4 (amended): the card operations — createItem, updateItem,
deleteItem — append exactly one LogEntry on success and none on failure
(rollback); the column operations — createContainer, updateContainer,
deleteContainer — append none at all, and deleteContainer's cascaded card
deletion produces no per-card LogEntry. -/
theorem c4_logging_amended :
    (∀ db nextId t d col tag uid db' c,
      createCard noFault db nextId t d col tag uid = .ok (db', c) →
      ∃ e, db'.logs = db.logs ++ [e]) ∧
    (∀ db id t d col p tag uid db' c,
      updateCard noFault db id t d col p tag uid = .ok (db', c) →
      ∃ e, db'.logs = db.logs ++ [e]) ∧
    (∀ db id uid db', deleteCard noFault db id uid = .ok db' →
      ∃ e, db'.logs = db.logs ++ [e]) ∧
    (∀ (φ : Nat → Bool) db nextId t d col tag uid e,
      createCard φ db nextId t d col tag uid = .error e →
      (commitP db (createCard φ db nextId t d col tag uid)).logs = db.logs) ∧
    (∀ (φ : Nat → Bool) db id t d col p tag uid e,
      updateCard φ db id t d col p tag uid = .error e →
      (commitP db (updateCard φ db id t d col p tag uid)).logs = db.logs) ∧
    (∀ (φ : Nat → Bool) db id uid e, deleteCard φ db id uid = .error e →
      (commit db (deleteCard φ db id uid)).logs = db.logs) ∧
    (∀ db nextId n uid, (createColumn db nextId n uid).1.logs = db.logs) ∧
    (∀ db id n pos uid db' c, updateColumn db id n pos uid = .ok (db', c) →
      db'.logs = db.logs) ∧
    (∀ db id uid db', deleteColumn db id uid = .ok db' →
      db'.logs = db.logs) := by
  refine ⟨?_, ?_, ?_, ?_, ?_, ?_, ?_, ?_, ?_⟩
  · intro db nextId t d col tag uid db' c hok
    cases hcol : Column.findByPk db col with
    | none => rw [createCard_eval_nocol hcol] at hok; cases hok
    | some column =>
      rw [createCard_eval hcol] at hok
      injection hok with hok
      injection hok with hdb _
      subst hdb
      exact ⟨_, rfl⟩
  · intro db id t d col p tag uid db' c hok
    cases hfind : Card.findByPk db id with
    | none => rw [updateCard_eval_notfound hfind] at hok; cases hok
    | some c₀ =>
      cases hfrom : Column.findByPk db c₀.columnId with
      | none => rw [updateCard_eval_nocol hfind hfrom] at hok; cases hok
      | some fc =>
        by_cases hsame : col = c₀.columnId
        · subst hsame
          by_cases hpe : p = c₀.position
          · subst hpe
            rw [updateCard_eval_same_same hfind hfrom t d tag uid] at hok
            injection hok with hok
            injection hok with hdb _
            subst hdb
            exact ⟨_, rfl⟩
          · by_cases hlt : p < c₀.position
            · rw [updateCard_eval_same_up hfind hfrom t d tag uid hlt] at hok
              injection hok with hok
              injection hok with hdb _
              subst hdb
              exact ⟨_, rfl⟩
            · have hgt : c₀.position < p := by omega
              rw [updateCard_eval_same_down hfind hfrom t d tag uid hgt] at hok
              injection hok with hok
              injection hok with hdb _
              subst hdb
              exact ⟨_, rfl⟩
        · cases hnew : Column.findByPk db col with
          | none =>
            rw [updateCard_eval_cross_notfound hfind hfrom t d p tag uid
              hsame hnew] at hok
            cases hok
          | some nc =>
            rw [updateCard_eval_cross hfind hfrom t d p tag uid hsame hnew] at hok
            injection hok with hok
            injection hok with hdb _
            subst hdb
            exact ⟨_, rfl⟩
  · intro db id uid db' hok
    cases hfind : Card.findByPk db id with
    | none => rw [deleteCard_eval_notfound hfind] at hok; cases hok
    | some c₀ =>
      cases hfrom : Column.findByPk db c₀.columnId with
      | none => rw [deleteCard_eval_nocol hfind hfrom] at hok; cases hok
      | some fc =>
        rw [deleteCard_eval hfind hfrom] at hok
        injection hok with hdb
        subst hdb
        exact ⟨_, rfl⟩
  · intro φ db nextId t d col tag uid e h
    rw [h]
    rfl
  · intro φ db id t d col p tag uid e h
    rw [h]
    rfl
  · intro φ db id uid e h
    rw [h]
    rfl
  · intro db nextId n uid
    rfl
  · intro db id n pos uid db' c hok
    cases hfind : Column.findByPk db id with
    | none => rw [updateColumn_eval_notfound hfind] at hok; cases hok
    | some col₀ =>
      have hstep : (col₀.userId = none ∨ col₀.userId = some uid) →
          db'.logs = db.logs := by
        intro hperm
        rcases hpos : pos with _ | p
        · rw [hpos] at hok
          rw [updateColumn_eval_noshift hfind hperm n (Or.inl rfl)] at hok
          injection hok with hok
          injection hok with hdb _
          subst hdb
          rfl
        · rw [hpos] at hok
          by_cases hp0 : p = 0
          · subst hp0
            rw [updateColumn_eval_noshift hfind hperm n (Or.inr (Or.inl rfl))]
              at hok
            injection hok with hok
            injection hok with hdb _
            subst hdb
            rfl
          · by_cases hpe : p = col₀.position
            · subst hpe
              rw [updateColumn_eval_noshift hfind hperm n
                (Or.inr (Or.inr rfl))] at hok
              injection hok with hok
              injection hok with hdb _
              subst hdb
              rfl
            · by_cases hlt : p < col₀.position
              · rw [updateColumn_eval_up hfind hperm n hp0 hlt] at hok
                injection hok with hok
                injection hok with hdb _
                subst hdb
                rfl
              · have hgt : col₀.position < p := by omega
                rw [updateColumn_eval_down hfind hperm n hp0 hgt] at hok
                injection hok with hok
                injection hok with hdb _
                subst hdb
                rfl
      cases hsU : col₀.userId with
      | none => exact hstep (Or.inl hsU)
      | some o =>
        by_cases ho : o = uid
        · exact hstep (Or.inr (by rw [hsU, ho]))
        · rw [updateColumn_eval_forbidden hfind hsU n pos ho] at hok
          cases hok
  · intro db id uid db' hok
    cases hfind : Column.findByPk db id with
    | none => rw [deleteColumn_eval_notfound hfind] at hok; cases hok
    | some col₀ =>
      have hstep : (col₀.userId = none ∨ col₀.userId = some uid) →
          db'.logs = db.logs := by
        intro hperm
        rw [deleteColumn_eval hfind hperm] at hok
        injection hok with hdb
        subst hdb
        rfl
      cases hsU : col₀.userId with
      | none => exact hstep (Or.inl hsU)
      | some o =>
        by_cases ho : o = uid
        · exact hstep (Or.inr (by rw [hsU, ho]))
        · rw [deleteColumn_eval_forbidden hfind hsU ho] at hok
          cases hok

/-- Witness for claim C4 (amended): a concrete successful card create
appends one log row, a concrete failed update appends none, and a concrete
column update appends none. -/
theorem c4_witness :
    (∃ e, ({ twoCardBoard with
        cards := twoCardBoard.cards ++ [freshCard 3 "c" none 1
          (listMax (colPositions twoCardBoard.cards 1) + 1) none 1],
        logs := twoCardBoard.logs ++ [createLog 3 "c"
          "Todo" (listMax (colPositions twoCardBoard.cards 1) + 1) 1] } :
        DB).logs = twoCardBoard.logs ++ [e]) ∧
    (commitP twoCardBoard
      (updateCard noFault twoCardBoard 99 "x" none 1 1 none 1)).logs =
      twoCardBoard.logs :=
  ⟨(c4_logging_amended).1 twoCardBoard 3 "c" none 1 none 1 _ _ (by rfl),
    (c4_logging_amended).2.2.2.2.1 noFault twoCardBoard 99 "x" none 1 1 none 1
      "Card not found" (by rfl)⟩

/-!
### Claim C8
-/

/-- Claim C8 fails on the code for card operations: user 2 deletes the
card owned (privately) by user 1 — the route performs no ownership check,
the call succeeds, the card is gone and the gap is closed, where the claim
demands a Forbidden error with no state change. -/
theorem c8_counterexample :
    (deleteCard noFault twoCardBoard 1 2).toOption.map
      (fun r => r.cards.map (fun c => (c.id, c.position, c.userId))) =
      some [(2, 1, some 1)] := by
  rfl

/-- Claim C8 (amended): the column routes do enforce ownership — updating
or deleting a column privately owned by another user fails with the 403
error and commits nothing — but the card routes perform no ownership check
at all: updateItem and deleteItem succeed for ANY requester whenever the
card and its column row exist, whatever the card's owner. -/
theorem c8_ownership_amended :
    (∀ db id (col₀ : Column) o name pos uid,
      Column.findByPk db id = some col₀ → col₀.userId = some o → o ≠ uid →
      updateColumn db id name pos uid =
        .error "Not authorized to update this column" ∧
      commitP db (updateColumn db id name pos uid) = db) ∧
    (∀ db id (col₀ : Column) o uid,
      Column.findByPk db id = some col₀ → col₀.userId = some o → o ≠ uid →
      deleteColumn db id uid = .error "Not authorized to delete this column" ∧
      commit db (deleteColumn db id uid) = db) ∧
    (∀ db id (c₀ : Card) (fc : Column) uid,
      Card.findByPk db id = some c₀ →
      Column.findByPk db c₀.columnId = some fc →
      ∃ db', deleteCard noFault db id uid = .ok db') ∧
    (∀ db id (c₀ : Card) (fc : Column) t d p tag uid,
      Card.findByPk db id = some c₀ →
      Column.findByPk db c₀.columnId = some fc →
      ∃ db' c', updateCard noFault db id t d c₀.columnId p tag uid =
        .ok (db', c')) := by
  refine ⟨?_, ?_, ?_, ?_⟩
  · intro db id col₀ o name pos uid hfind hown hne
    have h := updateColumn_eval_forbidden hfind hown name pos hne
    exact ⟨h, by rw [h]; rfl⟩
  · intro db id col₀ o uid hfind hown hne
    have h := deleteColumn_eval_forbidden hfind hown hne
    exact ⟨h, by rw [h]; rfl⟩
  · intro db id c₀ fc uid hfind hfrom
    exact ⟨_, deleteCard_eval hfind hfrom uid⟩
  · intro db id c₀ fc t d p tag uid hfind hfrom
    by_cases hpe : p = c₀.position
    · subst hpe
      exact ⟨_, _, updateCard_eval_same_same hfind hfrom t d tag uid⟩
    · by_cases hlt : p < c₀.position
      · exact ⟨_, _, updateCard_eval_same_up hfind hfrom t d tag uid hlt⟩
      · have hgt : c₀.position < p := by omega
        exact ⟨_, _, updateCard_eval_same_down hfind hfrom t d tag uid hgt⟩

/-- The first card of `twoCardBoard`. -/
def twoCardBoardCard1 : Card :=
  { id := 1, title := "a", description := none, columnId := 1, position := 1,
    tagId := none, userId := some 1 }

/-- The privately owned column of `twoOwnerBoard`. -/
def mineColumn : Column :=
  { id := 2, name := "Mine", position := 2, userId := some 2 }

/-- Witness for claim C8 (amended): user 1 is refused on user 2's column
"Mine", while user 99 freely deletes user 1's card. -/
theorem c8_witness :
    (updateColumn twoOwnerBoard 2 none none 1 =
      .error "Not authorized to update this column" ∧
      commitP twoOwnerBoard (updateColumn twoOwnerBoard 2 none none 1) =
        twoOwnerBoard) ∧
    (∃ db', deleteCard noFault twoCardBoard 1 99 = .ok db') :=
  ⟨(c8_ownership_amended).1 twoOwnerBoard 2 mineColumn 2 none none 1
      (by rfl) (by rfl) (by decide),
    (c8_ownership_amended).2.2.1 twoCardBoard 1 twoCardBoardCard1
      { id := 1, name := "Todo", position := 1, userId := none } 99
      (by rfl) (by rfl)⟩

/-!
### Claim C9
-/

/-- SQL string concatenation (`||`): NULL-propagating. -/
def sqlConcat : Option String → Option String → Option String
  | some a, some b => some (a ++ b)
  | _, _ => none

/-- Embeds the CASE expression of `router.get('/readable')` in
src/server/routes/logs.js: each action kind concatenates the fixed
template pieces with the (nullable) stored column-name snapshots using
SQL `||`. -/
def renderDescription (e : LogEntry) : Option String :=
  if e.actionType = "created" then
    sqlConcat (sqlConcat (sqlConcat (some "\"") (some e.cardTitle))
      (some "\" was created in \"")) (sqlConcat e.toColumn (some "\""))
  else if e.actionType = "deleted" then
    sqlConcat (sqlConcat (sqlConcat (some "\"") (some e.cardTitle))
      (some "\" was deleted from \"")) (sqlConcat e.fromColumn (some "\""))
  else if e.actionType = "moved_column" then
    sqlConcat (sqlConcat (sqlConcat (sqlConcat (sqlConcat (some "\"")
      (some e.cardTitle)) (some "\" was moved from \"")) e.fromColumn)
      (some "\" to \"")) (sqlConcat e.toColumn (some "\""))
  else if e.actionType = "moved_up" then
    sqlConcat (sqlConcat (sqlConcat (some "\"") (some e.cardTitle))
      (some "\" was moved up within the column \""))
      (sqlConcat e.fromColumn (some "\""))
  else if e.actionType = "moved_down" then
    sqlConcat (sqlConcat (sqlConcat (some "\"") (some e.cardTitle))
      (some "\" was moved down within the column \""))
      (sqlConcat e.fromColumn (some "\""))
  else
    sqlConcat (sqlConcat (some "\"") (some e.cardTitle))
      (some "\" was updated")

theorem sqlConcat_none_right (x : Option String) : sqlConcat x none = none := by
  cases x <;> rfl

/-- A log row whose to-column snapshot is missing. -/
def orphanLog : LogEntry :=
  { cardId := some 1, cardTitle := "Task", actionType := "created",
    fromColumn := none, toColumn := none, fromPosition := none,
    toPosition := some 1, userId := some 1 }

/-- Claim C9 fails on the code: a `created` log row with a NULL to-column
snapshot renders as SQL NULL — `||` propagates NULL — not as the fixed
template with an "Unknown Column" placeholder (no such placeholder exists
anywhere in the code). -/
theorem c9_counterexample :
    renderDescription orphanLog = none ∧
    renderDescription orphanLog ≠
      some ("\"Task\" was created in \"" ++ "Unknown Column" ++ "\"") := by
  refine ⟨by rfl, ?_⟩
  rw [show renderDescription orphanLog = none from rfl]
  intro h
  cases h

/-- Claim C9 (amended): whenever the column-name snapshot a template needs
is missing, the rendered description is NULL (SQL `||` propagates NULL);
no placeholder is substituted and no non-null description is produced. -/
theorem c9_null_narrative_amended (e : LogEntry)
    (h : (e.actionType = "created" ∧ e.toColumn = none) ∨
      (e.actionType = "deleted" ∧ e.fromColumn = none) ∨
      (e.actionType = "moved_column" ∧
        (e.fromColumn = none ∨ e.toColumn = none)) ∨
      (e.actionType = "moved_up" ∧ e.fromColumn = none) ∨
      (e.actionType = "moved_down" ∧ e.fromColumn = none)) :
    renderDescription e = none := by
  unfold renderDescription
  rcases h with ⟨ha, hc⟩ | ⟨ha, hc⟩ | ⟨ha, hc | hc⟩ | ⟨ha, hc⟩ | ⟨ha, hc⟩ <;>
    rw [ha] <;> simp [hc, sqlConcat_none_right, sqlConcat]

/-- A `deleted` log row whose from-column snapshot is missing. -/
def orphanDeleteLog : LogEntry :=
  { cardId := some 2, cardTitle := "Old", actionType := "deleted",
    fromColumn := none, toColumn := none, fromPosition := none,
    toPosition := none, userId := some 1 }

/-- Witness for claim C9 (amended): a `deleted` row with a NULL from-column
renders as NULL. -/
theorem c9_witness :
    (orphanDeleteLog.actionType = "deleted" ∧
      orphanDeleteLog.fromColumn = none) ∧
    renderDescription orphanDeleteLog = none :=
  ⟨⟨rfl, rfl⟩,
    c9_null_narrative_amended orphanDeleteLog (Or.inr (Or.inl ⟨rfl, rfl⟩))⟩

/-!
### Claim C10
-/

/-- Claim C10: on an existing, permitted column, a falsy `name` (absent or
empty) leaves the name unchanged, and a falsy-or-equal `position` (absent,
0, or the current position) triggers no shift of any column and leaves the
target's position unchanged; every other column is written back verbatim
and the target's owner field is untouched. -/
theorem c10_falsy_container_update {db : DB} {id : Nat} {col₀ : Column}
    {uid : Nat} (hfind : Column.findByPk db id = some col₀)
    (hperm : col₀.userId = none ∨ col₀.userId = some uid)
    (name : Option String) {position : Option Nat}
    (hpos : position = none ∨ position = some 0 ∨
      position = some col₀.position) :
    updateColumn db id name position uid =
      .ok ({ db with columns := db.columns.map (fun c => if c.id = id then
               renamedColumn col₀ (jsOrStr name col₀.name) col₀.position
               else c) },
           renamedColumn col₀ (jsOrStr name col₀.name) col₀.position) ∧
    ((name = none ∨ name = some "") → jsOrStr name col₀.name = col₀.name) ∧
    (renamedColumn col₀ (jsOrStr name col₀.name) col₀.position).position =
      col₀.position ∧
    (renamedColumn col₀ (jsOrStr name col₀.name) col₀.position).userId =
      col₀.userId := by
  refine ⟨updateColumn_eval_noshift hfind hperm name hpos, ?_, rfl, rfl⟩
  rintro (h | h) <;> subst h <;> simp [jsOrStr]

/-- Witness for claim C10: user 2 updates their column "Mine" with an
empty name and position 0 — nothing changes but the row write-back. -/
theorem c10_witness :
    (Column.findByPk twoOwnerBoard 2 = some mineColumn ∧
      (some 0 = (none : Option Nat) ∨ (some 0 = some 0 ∨
        some 0 = some mineColumn.position))) ∧
    (updateColumn twoOwnerBoard 2 (some "") (some 0) 2 =
      .ok ({ twoOwnerBoard with
             columns := twoOwnerBoard.columns.map (fun c => if c.id = 2 then
               renamedColumn mineColumn (jsOrStr (some "") mineColumn.name)
                 mineColumn.position else c) },
           renamedColumn mineColumn (jsOrStr (some "") mineColumn.name)
             mineColumn.position) ∧
      ((some "" = (none : Option String) ∨ some "" = some "") →
        jsOrStr (some "") mineColumn.name = mineColumn.name) ∧
      (renamedColumn mineColumn (jsOrStr (some "") mineColumn.name)
        mineColumn.position).position = mineColumn.position ∧
      (renamedColumn mineColumn (jsOrStr (some "") mineColumn.name)
        mineColumn.position).userId = mineColumn.userId) :=
  ⟨⟨by rfl, Or.inr (Or.inl rfl)⟩,
    c10_falsy_container_update (by rfl) (Or.inr (by rfl)) (some "")
      (Or.inr (Or.inl rfl))⟩

end RehlaTodo
